import Mathlib

set_option autoImplicit false

/-!
Shallow embedding of the crawl-and-synchronize core of the rybavvode
repository (forum scraper, session auth, geocoding providers, repository
upserts and the per-run sync orchestrator), together with theorems that
settle the specification claims against it.  Python integers and UTC
instants are modelled as `Int`, floats appearing only as exact decimal
score constants are modelled as `Rat`, and network / filesystem effects
are modelled as explicit oracles and state.
-/

namespace RybaVVode

/-! ### ForumScraper.extract_topic_external_id (forum_scraper.py lines 107-110)

`re.search(r"\.(\d+)(?:/|$)", url)` finds the leftmost position at which a
dot is followed by a maximal non-empty run of digits that is itself
followed by `/` or the end of the string, and captures the digit run.
On no match the code falls back to `url.rstrip("/").split("/")[-1]`. -/

/-- Leftmost match of the Python pattern `\.(\d+)(?:/|$)`: scanning
positions left to right, at a `.` take the maximal digit run after it and
accept when it is non-empty and followed by `/` or the end. -/
def findDotDigits : List Char → Option (List Char)
  | [] => none
  | c :: rest =>
    if c = '.' then
      let ds := rest.takeWhile Char.isDigit
      let tail := rest.drop ds.length
      if ds ≠ [] ∧ (tail = [] ∨ tail.head? = some '/') then some ds
      else findDotDigits rest
    else findDotDigits rest

/-- Trailing `/` characters removed, as by Python `url.rstrip("/")`. -/
def rstripSlashes (l : List Char) : List Char :=
  (l.reverse.dropWhile (· == '/')).reverse

/-- The suffix after the last `/`, which is what
`url.split("/")[-1]` yields (the whole string when no `/` occurs). -/
def afterLastSlash (l : List Char) : List Char :=
  (l.reverse.takeWhile (· != '/')).reverse

/-- Embedding of `ForumScraper.extract_topic_external_id`: the captured
digit run of the regex when it matches, otherwise
`url.rstrip("/").split("/")[-1]`. -/
def extract_topic_external_id (url : String) : String :=
  match findDotDigits url.data with
  | some ds => String.mk ds
  | none => String.mk (afterLastSlash (rstripSlashes url.data))

/-- Maximal digit runs that immediately precede a slash, collected left to
right; a run is only counted from its start (previous character not a
digit).  Formalizes the specification words "run of digits immediately
preceding a trailing slash"; the spec asks for the last such run. -/
def digitRunsBeforeSlash : Bool → List Char → List (List Char)
  | _, [] => []
  | prev, c :: rest =>
    let here : List (List Char) :=
      if c.isDigit ∧ prev = false then
        let ds := (c :: rest).takeWhile Char.isDigit
        if ((c :: rest).drop ds.length).head? = some '/' then [ds] else []
      else []
    here ++ digitRunsBeforeSlash c.isDigit rest

/-- The claim's description of the extracted topic external id, taken
verbatim from the spec: the last run of digits immediately preceding a
slash, or the last path segment when no such run exists. -/
def specTopicExternalId (url : String) : String :=
  match (digitRunsBeforeSlash false url.data).getLast? with
  | some ds => String.mk ds
  | none => String.mk (afterLastSlash (rstripSlashes url.data))

/-- The amended claim's shape, stated over an arbitrary decomposition of the
URL: right after the prefix `a` stands a dot, followed by the non-empty
all-digit run `ds`, which is immediately followed by a slash or the end of
the URL (`b` is the rest).  The occurrence with the shortest `a` is the
leftmost one. -/
def dotDigitsAt (l a ds b : List Char) : Prop :=
  l = a ++ '.' :: (ds ++ b) ∧ ds ≠ [] ∧ (∀ c ∈ ds, c.isDigit = true) ∧
    (b = [] ∨ b.head? = some '/')

/-! ### ForumScraper._topic_last_page and fetch_topic_posts
(forum_scraper.py lines 218-240) -/

/-- Numeric value of a digit-character list, most significant first. -/
def digitsToNat (l : List Char) : ℕ :=
  l.foldl (fun n c => 10 * n + (c.toNat - '0'.toNat)) 0

/-- Leftmost match of the Python pattern `/page-(\d+)` in an href,
returning the captured page number. -/
def findPageNumber : List Char → Option ℕ
  | [] => none
  | c :: rest =>
    let l := c :: rest
    if "/page-".data.isPrefixOf l then
      let ds := (l.drop 6).takeWhile Char.isDigit
      if ds ≠ [] then some (digitsToNat ds) else findPageNumber rest
    else findPageNumber rest

/-- Page numbers extracted from the hrefs of the `a[href*='/page-']`
anchors of a fetched topic first page. -/
def pageNumbersOf (hrefs : List String) : List ℕ :=
  hrefs.filterMap fun h => findPageNumber h.data

/-- Embedding of `ForumScraper._topic_last_page`: `none` models a failed
or empty fetch of the topic's first page (return 1); otherwise the code
starts from `pages = [1]`, appends every matched page number and returns
`max(pages)`. -/
def topic_last_page (fetched : Option (List String)) : ℕ :=
  match fetched with
  | none => 1
  | some hrefs => (pageNumbersOf hrefs).foldl max 1

/-- Embedding of the page window of `ForumScraper.fetch_topic_posts`:
`start_page = max(1, last_page - self.max_topic_pages + 1)` and the pages
iterated are `range(start_page, last_page + 1)`.  Python integers are
signed, so the window is computed over `Int`. -/
def fetchedPages (lastPage maxTopicPages : ℤ) : List ℤ :=
  (List.range (lastPage + 1 - max 1 (lastPage - maxTopicPages + 1)).toNat).map
    fun i : ℕ => max 1 (lastPage - maxTopicPages + 1) + (i : ℤ)

/-! ### ForumScraper._fetch (forum_scraper.py lines 84-101)

The fetch loop makes up to `retries = 3` attempts; a successful attempt
sleeps the rate-limit delay and returns the body; a failed attempt (any
exception, including the `raise_for_status` of a non-2xx response) sleeps
`attempt * 1.0` seconds and moves on, except that the last attempt
returns `""`.  All exceptions are caught, so the embedding is a total
function: the caller can never observe a raised error.  The oracle
`resp attempt` gives the body of a successful attempt, `none` any
transport failure or non-2xx response. -/

/-- Observable events of one `_fetch` call. -/
inductive FetchEvent where
  /-- The HTTP GET of attempt `n` (attempts are numbered from 1). -/
  | request (n : ℕ)
  /-- The backoff sleep of `seconds * 1.0` seconds after a failed attempt. -/
  | backoff (seconds : ℕ)
  /-- The rate-limit sleep taken after a successful response. -/
  | rateDelay
  deriving DecidableEq

/-- Number of configured attempts (`retries = 3`). -/
def fetchRetries : ℕ := 3

/-- The attempt loop of `ForumScraper._fetch`, with `fuel` the number of
attempts still allowed (the loop is entered with `fuel = retries`). -/
def fetchLoop (resp : ℕ → Option String) : ℕ → ℕ → List FetchEvent × String
  | _, 0 => ([], "")
  | attempt, fuel + 1 =>
    match resp attempt with
    | some body => ([.request attempt, .rateDelay], body)
    | none =>
      if fuel = 0 then ([.request attempt], "")
      else
        let rest := fetchLoop resp (attempt + 1) fuel
        (.request attempt :: .backoff attempt :: rest.1, rest.2)

/-- Embedding of `ForumScraper._fetch`: a URL disallowed by robots.txt is
not attempted at all and yields `""`. -/
def fetch (resp : ℕ → Option String) (robotsAllowed : Bool) : List FetchEvent × String :=
  if robotsAllowed then fetchLoop resp 1 fetchRetries else ([], "")

/-- Number of HTTP requests recorded in a fetch trace. -/
def requestCount (evs : List FetchEvent) : ℕ :=
  evs.countP fun e => match e with | .request _ => true | _ => false

/-! ### GeocodingService (geocoding.py)

Both providers are embedded over an HTTP oracle: `transportError` models an
exception raised by `client.get`, `response code payload` a completed
response whose JSON body already parsed into the fields the code reads.
The result type is `Except`: an `Except.error` value marks an exception
propagating out of `geocode` (the code has no try/except), `Except.ok`
a normal return. -/

structure GeocodeResult where
  lat : ℚ
  lon : ℚ
  confidence : ℚ
  provider : String
  deriving DecidableEq

/-- Outcome of the single HTTP GET a geocoder performs. -/
inductive HttpOutcome (π : Type) where
  /-- The request itself raised (timeout, connection error, ...). -/
  | transportError
  /-- A completed response with its status code and parsed JSON payload. -/
  | response (statusCode : ℕ) (payload : π)

/-- A single entry of Google's `results` array, reduced to the fields the
code reads: `geometry.location_type` (absent keys modelled as `none`) and
`geometry.location`. -/
structure GoogleCandidate where
  locationType : Option String
  lat : ℚ
  lng : ℚ
  deriving DecidableEq

structure GooglePayload where
  status : String
  results : List GoogleCandidate
  deriving DecidableEq

/-- `GoogleGeocoder.LOCATION_TYPE_SCORE.get(key, dflt)`. -/
def googleLocationTypeScore (key : String) (dflt : ℚ) : ℚ :=
  if key = "ROOFTOP" then 1
  else if key = "RANGE_INTERPOLATED" then 8/10
  else if key = "GEOMETRIC_CENTER" then 6/10
  else if key = "APPROXIMATE" then 4/10
  else dflt

/-- `x.get("geometry", {}).get("location_type", "APPROXIMATE")`. -/
def googleLocationType (c : GoogleCandidate) : String :=
  c.locationType.getD "APPROXIMATE"

/-- The head of a stable descending sort by `score`: the first element
attaining the maximal score, which is what
`sorted(results, key=score, reverse=True)[0]` selects (Python's sort is
stable, so ties keep response order). -/
def pickBest {α : Type} (score : α → ℚ) : α → List α → α
  | best, [] => best
  | best, c :: rest =>
    if score c > score best then pickBest score c rest else pickBest score best rest

/-- Whether `httpx.Response.raise_for_status` passes (2xx status). -/
def is2xx (code : ℕ) : Bool := decide (200 ≤ code ∧ code < 300)

/-- Embedding of `GoogleGeocoder.geocode`.  An empty API key returns
`none` immediately; then the HTTP call and `raise_for_status` may raise;
then a payload whose status is not `"OK"` or whose result list is empty
yields `none`; otherwise the best candidate by location-type score (sort
default 0.1) is returned with the confidence lookup (default 0.4). -/
def GoogleGeocoder.geocode (apiKey : String) (http : HttpOutcome GooglePayload) :
    Except String (Option GeocodeResult) :=
  if apiKey = "" then .ok none
  else
    match http with
    | .transportError => .error "httpx transport error"
    | .response code payload =>
      if ¬ is2xx code then .error "HTTPStatusError"
      else if payload.status ≠ "OK" ∨ payload.results = [] then .ok none
      else
        match payload.results with
        | [] => .ok none
        | c :: rest =>
          let best := pickBest (fun x => googleLocationTypeScore (googleLocationType x) (1/10)) c rest
          .ok (some { lat := best.lat, lon := best.lng,
                      confidence := googleLocationTypeScore (googleLocationType best) (4/10),
                      provider := "google" })

/-- A single `featureMember` of Yandex's response, reduced to the fields
the code reads: the `precision` of the geocoder metadata (absent keys
modelled as `none`) and the parsed `Point.pos` coordinates (the code
splits `"lon lat"` and converts both to float). -/
structure YandexCandidate where
  precision : Option String
  posLon : ℚ
  posLat : ℚ
  deriving DecidableEq

structure YandexPayload where
  featureMembers : List YandexCandidate
  deriving DecidableEq

/-- `YandexGeocoder.PRECISION_SCORE.get(key, dflt)`. -/
def yandexPrecisionScore (key : String) (dflt : ℚ) : ℚ :=
  if key = "exact" then 1
  else if key = "number" then 9/10
  else if key = "near" then 8/10
  else if key = "street" then 6/10
  else if key = "other" then 4/10
  else dflt

/-- The `precision` lookup with its `"other"` default. -/
def yandexPrecision (c : YandexCandidate) : String :=
  c.precision.getD "other"

/-- Embedding of `YandexGeocoder.geocode`, structured exactly like the
Google one: empty key yields `none`; the HTTP call and `raise_for_status`
may raise; an empty `featureMember` list yields `none`; otherwise the best
candidate by precision score (sort default 0.3, confidence default 0.4). -/
def YandexGeocoder.geocode (apiKey : String) (http : HttpOutcome YandexPayload) :
    Except String (Option GeocodeResult) :=
  if apiKey = "" then .ok none
  else
    match http with
    | .transportError => .error "httpx transport error"
    | .response code payload =>
      if ¬ is2xx code then .error "HTTPStatusError"
      else
        match payload.featureMembers with
        | [] => .ok none
        | c :: rest =>
          let best := pickBest (fun x => yandexPrecisionScore (yandexPrecision x) (3/10)) c rest
          .ok (some { lat := best.posLat, lon := best.posLon,
                      confidence := yandexPrecisionScore (yandexPrecision best) (4/10),
                      provider := "yandex" })

/-! ### Data model (models.py) and repository operations (repository.py)

Rows carry the columns the sync core reads or writes; UTC timestamps are
`Int` instants, autoincrement primary keys are drawn from per-table
counters.  An SQL `UPDATE` through a row object found by unique key is
modelled by rewriting the first list element matching that key. -/

structure TopicRow where
  id : ℕ
  source_id : ℕ
  external_id : String
  title : String
  url : String
  place_name : String
  geocoded_lat : Option ℚ := none
  geocoded_lon : Option ℚ := none
  geocode_provider : Option String := none
  geocode_confidence : Option ℚ := none
  geocode_updated_at : Option ℤ := none
  last_seen_at : ℤ
  deriving DecidableEq

structure PostRow where
  id : ℕ
  topic_id : ℕ
  external_id : String
  author : String
  posted_at_utc : ℤ
  content_text : String
  url : String
  is_deleted : Bool := false
  deleted_at : Option ℤ := none
  deriving DecidableEq

structure AttachmentRow where
  id : ℕ
  post_id : ℕ
  source_url : String
  file_name : String
  mime_type : Option String := none
  size_bytes : Option ℕ := none
  local_rel_path : Option String := none
  is_image : Bool
  deriving DecidableEq

structure Db where
  topics : List TopicRow
  posts : List PostRow
  attachments : List AttachmentRow
  nextTopicId : ℕ
  nextPostId : ℕ
  nextAttachmentId : ℕ
  deriving DecidableEq

def emptyDb : Db := ⟨[], [], [], 0, 0, 0⟩

/-- Rewrite the first element satisfying `p` (the row an SQL UPDATE through
a unique-key lookup mutates); all other elements are untouched. -/
def updateFirst {α : Type} (p : α → Bool) (f : α → α) : List α → List α
  | [] => []
  | x :: xs => if p x then f x :: xs else x :: updateFirst p f xs

/-- The unique-key predicate of `Topic`: `(source_id, external_id)`. -/
def topicKey (sid : ℕ) (eid : String) (t : TopicRow) : Bool :=
  t.source_id == sid && t.external_id == eid

/-- The unique-key predicate of `Post`: `(topic_id, external_id)`. -/
def postKey (tid : ℕ) (eid : String) (p : PostRow) : Bool :=
  p.topic_id == tid && p.external_id == eid

/-- The unique-key predicate of `PostAttachment`: `(post_id, source_url)`. -/
def attachmentKey (pid : ℕ) (surl : String) (a : AttachmentRow) : Bool :=
  a.post_id == pid && a.source_url == surl

def findTopic (ts : List TopicRow) (sid : ℕ) (eid : String) : Option TopicRow :=
  ts.find? (topicKey sid eid)

def findPost (ps : List PostRow) (tid : ℕ) (eid : String) : Option PostRow :=
  ps.find? (postKey tid eid)

def findAttachment (as : List AttachmentRow) (pid : ℕ) (surl : String) :
    Option AttachmentRow :=
  as.find? (attachmentKey pid surl)

/-- The field refresh `upsert_topic` applies to an existing topic row. -/
def topicRowRefresh (title url place_name : String) (now : ℤ) (r : TopicRow) : TopicRow :=
  { r with title := title, url := url, place_name := place_name, last_seen_at := now }

/-- The field refresh `upsert_post` applies to an existing post row. -/
def postRowRefresh (author : String) (posted_at_utc : ℤ) (content_text url : String)
    (r : PostRow) : PostRow :=
  { r with author := author, posted_at_utc := posted_at_utc,
           content_text := content_text, url := url }

/-- The field update `upsert_post_attachment` applies to an existing
attachment row: name and image flag always, the three download columns
only when the argument is not `None`. -/
def attachmentRowUpdate (file_name : String) (is_image : Bool)
    (local_rel_path mime_type : Option String) (size_bytes : Option ℕ)
    (r : AttachmentRow) : AttachmentRow :=
  { r with
      file_name := file_name, is_image := is_image,
      local_rel_path := match local_rel_path with
        | some v => some v
        | none => r.local_rel_path,
      mime_type := match mime_type with
        | some v => some v
        | none => r.mime_type,
      size_bytes := match size_bytes with
        | some v => some v
        | none => r.size_bytes }

/-- Embedding of `repository.upsert_topic`: an existing row keyed
`(source_id, external_id)` gets `title`, `url`, `place_name` and
`last_seen_at = now` refreshed (its other columns, the geocode fields
included, are untouched); otherwise a fresh row is inserted. -/
def upsert_topic (db : Db) (now : ℤ) (source_id : ℕ)
    (external_id title url place_name : String) : Db × TopicRow :=
  match findTopic db.topics source_id external_id with
  | some t =>
    ({ db with
        topics := updateFirst (topicKey source_id external_id)
          (topicRowRefresh title url place_name now) db.topics },
      topicRowRefresh title url place_name now t)
  | none =>
    let t : TopicRow :=
      { id := db.nextTopicId, source_id := source_id, external_id := external_id,
        title := title, url := url, place_name := place_name, last_seen_at := now }
    ({ db with topics := db.topics ++ [t], nextTopicId := db.nextTopicId + 1 }, t)

/-- Embedding of `repository.upsert_post`: an existing row keyed
`(topic_id, external_id)` gets `author`, `posted_at_utc`, `content_text`
and `url` refreshed (soft-delete state untouched); otherwise a fresh row
is inserted. -/
def upsert_post (db : Db) (topic_id : ℕ) (external_id author : String)
    (posted_at_utc : ℤ) (content_text url : String) : Db × PostRow :=
  match findPost db.posts topic_id external_id with
  | some p =>
    ({ db with
        posts := updateFirst (postKey topic_id external_id)
          (postRowRefresh author posted_at_utc content_text url) db.posts },
      postRowRefresh author posted_at_utc content_text url p)
  | none =>
    let p : PostRow :=
      { id := db.nextPostId, topic_id := topic_id, external_id := external_id,
        author := author, posted_at_utc := posted_at_utc,
        content_text := content_text, url := url }
    ({ db with posts := db.posts ++ [p], nextPostId := db.nextPostId + 1 }, p)

/-- Embedding of `repository.upsert_post_attachment`: an existing row keyed
`(post_id, source_url)` always gets `file_name` and `is_image` refreshed,
while `local_rel_path`, `mime_type` and `size_bytes` are overwritten only
when the argument is not `None`; otherwise a fresh row is inserted with
the arguments as given. -/
def upsert_post_attachment (db : Db) (post_id : ℕ) (source_url file_name : String)
    (is_image : Bool) (local_rel_path : Option String) (mime_type : Option String)
    (size_bytes : Option ℕ) : Db × AttachmentRow :=
  match findAttachment db.attachments post_id source_url with
  | some a =>
    ({ db with
        attachments := updateFirst (attachmentKey post_id source_url)
          (attachmentRowUpdate file_name is_image local_rel_path mime_type size_bytes)
          db.attachments },
      attachmentRowUpdate file_name is_image local_rel_path mime_type size_bytes a)
  | none =>
    let a : AttachmentRow :=
      { id := db.nextAttachmentId, post_id := post_id, source_url := source_url,
        file_name := file_name, mime_type := mime_type, size_bytes := size_bytes,
        local_rel_path := local_rel_path, is_image := is_image }
    ({ db with attachments := db.attachments ++ [a],
               nextAttachmentId := db.nextAttachmentId + 1 }, a)

/-- Concrete already-geocoded topic row used by the C8 witness. -/
def geocodedTopicRow : TopicRow where
  id := 0
  source_id := 1
  external_id := "7"
  title := "old"
  url := "u"
  place_name := "p"
  geocoded_lat := some 55
  geocoded_lon := some 37
  geocode_provider := some "yandex"
  geocode_confidence := some 1
  geocode_updated_at := some 100
  last_seen_at := 0

/-- Concrete one-topic database used by the C8 witness. -/
def geocodedTopicDb : Db := ⟨[geocodedTopicRow], [], [], 1, 0, 0⟩

/-- Concrete already-downloaded attachment row used by the C10 witness. -/
def downloadedAttachmentRow : AttachmentRow where
  id := 0
  post_id := 3
  source_url := "https://f/attachments/9/"
  file_name := "a.jpg"
  mime_type := some "image/jpeg"
  size_bytes := some 512
  local_rel_path := some "3/0_a.jpg"
  is_image := true

/-- Concrete one-attachment database used by the C10 witness. -/
def downloadedAttachmentDb : Db := ⟨[], [], [downloadedAttachmentRow], 0, 0, 1⟩

/-! ### SyncService (sync_service.py)

The orchestrator is embedded over a pure environment: the download outcome
per attachment URL and the geocoding outcome per place name are oracles
(deterministic across a run, matching "unchanged upstream"), the
attachment directory is the list of relative paths that exist, and
`now` is the run's clock.  `geocodeTtl` is the `timedelta` value of
`geocode_ttl_days` as an `Int` duration in the same unit as instants. -/

/-- Embedding of `SyncService.geocode_expired`: `True` when any of the
coordinates or the geocode timestamp is missing, otherwise whether the
timestamp is older than `now - ttl`. -/
def geocode_expired (ttl now : ℤ) (t : TopicRow) : Bool :=
  match t.geocoded_lat, t.geocoded_lon, t.geocode_updated_at with
  | none, _, _ => true
  | _, none, _ => true
  | _, _, none => true
  | some _, some _, some u => decide (u < now - ttl)

/-- Embedding of the geocoding block of `SyncService.run` (lines 188-196)
applied to the in-memory topic object: the provider result `geo` is
consulted only when `geocode_expired` holds; the returned flag records
whether the provider was called, the returned row is the topic object
afterwards.  On a `none` provider result nothing is written. -/
def runGeocodeStep (ttl now : ℤ) (t : TopicRow) (geo : Option GeocodeResult) :
    Bool × TopicRow :=
  if geocode_expired ttl now t then
    (true,
      match geo with
      | some g =>
        { t with geocoded_lat := some g.lat, geocoded_lon := some g.lon,
                 geocode_provider := some g.provider,
                 geocode_confidence := some g.confidence,
                 geocode_updated_at := some now }
      | none => t)
  else (false, t)

/-! ### ForumAuthService (forum_auth.py) and attachment download
(sync_service.py lines 59-112)

The login POST is an oracle `login call` giving the cookie header captured
by the `call`-th login (`""` models a failed login or one that captured no
cookies, which `_login` also returns on any exception).  The HTTP GET of
an attachment is an oracle `resp attempt` (`none` a raised transport
error). -/

/-- Whether `needle` occurs as a contiguous substring, Python `in`. -/
def containsSub (needle : List Char) : List Char → Bool
  | [] => needle.isEmpty
  | c :: rest => needle.isPrefixOf (c :: rest) || containsSub needle rest

/-- The suffix after the first occurrence of `sep`, when `sep` occurs. -/
def afterFirstSub (sep : List Char) : List Char → Option (List Char)
  | [] => if sep.isEmpty then some [] else none
  | c :: rest =>
    if sep.isPrefixOf (c :: rest) then some ((c :: rest).drop sep.length)
    else afterFirstSub sep rest

/-- The `path` component `urllib.parse.urlparse` extracts from an absolute
`scheme://netloc/...` URL: query and fragment stripped, and everything up
to the first slash after the authority skipped; a URL without `://` is all
path. -/
def urlPath (url : String) : List Char :=
  let noFragment := url.data.takeWhile (· ≠ '#')
  let noQuery := noFragment.takeWhile (· ≠ '?')
  match afterFirstSub "://".data noQuery with
  | some rest => rest.dropWhile (· ≠ '/')
  | none => noQuery

/-- Embedding of `ForumAuthService.is_login_redirect_url`: the lowercased
URL path contains `/login` and does not contain `/attachments/`. -/
def is_login_redirect_url (url : String) : Bool :=
  let path := (urlPath url).map Char.toLower
  containsSub "/login".data path && ! containsSub "/attachments/".data path

/-- The auth configuration: credentials (already `.strip()`-ed) and the
static fallback cookie. -/
structure AuthConfig where
  username : String
  password : String
  fallback_cookie : String

/-- `ForumAuthService.has_credentials`. -/
def hasCredentials (cfg : AuthConfig) : Bool :=
  cfg.username != "" && cfg.password != ""

/-- The mutable auth state: the cached cookie (plus how many logins have
been issued so far, to address the login oracle). -/
structure AuthState where
  cached : String
  loginCalls : ℕ

/-- Embedding of `ForumAuthService.ensure_cookie`: without credentials the
fallback is returned; with credentials the cached cookie is returned
unless empty or a refresh is forced, in which case `_login` runs and a
non-empty result replaces the cache while an empty one falls back to the
old cache or the fallback.  (The single-flight lock serialises callers;
one sequential call is modelled.) -/
def ensure_cookie (cfg : AuthConfig) (login : ℕ → String) (st : AuthState)
    (force_refresh : Bool) : String × AuthState :=
  if ! hasCredentials cfg then (cfg.fallback_cookie, st)
  else if st.cached != "" && ! force_refresh then (st.cached, st)
  else
    let fresh := login st.loginCalls
    if fresh != "" then (fresh, ⟨fresh, st.loginCalls + 1⟩)
    else (if st.cached != "" then st.cached else cfg.fallback_cookie,
      ⟨st.cached, st.loginCalls + 1⟩)

/-- A completed attachment GET: final URL after redirects, status code,
`content-type` header and body length. -/
structure HttpResp where
  status : ℕ
  finalUrl : String
  contentType : Option String
  bodyLen : ℕ
  deriving DecidableEq

/-- The auth-failure test of `_download_attachment`:
`resp.status_code in {401, 403}` or a login-shaped final URL. -/
def isUnauthorized (r : HttpResp) : Bool :=
  (r.status == 401 || r.status == 403) || is_login_redirect_url r.finalUrl

/-- Observable outcome of one `_download_attachment` call: the returned
`(content-type, size)` on success (`none` models Python `None`: the
download degraded, no exception), and how many forced cookie refreshes
and HTTP requests were made. -/
structure DownloadTrace where
  result : Option (Option String × ℕ)
  forcedRefreshes : ℕ
  requests : ℕ
  deriving DecidableEq

/-- The second loop iteration (`attempt == 1`): any auth failure, any
non-2xx status and any transport error now return `None` without another
refresh; a 2xx response returns the content type and byte count. -/
def downloadSecondAttempt (r? : Option HttpResp) : Option (Option String × ℕ) :=
  match r? with
  | none => none
  | some r =>
    if isUnauthorized r then none
    else if ! is2xx r.status then none
    else some (r.contentType, r.bodyLen)

/-- Embedding of `SyncService._download_attachment`.  The entry cookie is
obtained without forcing; an empty cookie aborts with no request.  On
attempt 0, an auth failure, a non-2xx (`raise_for_status`) and a transport
error all take the same path: one forced refresh, then one retry when the
refreshed cookie is non-empty and `None` otherwise. -/
def downloadAttachment (cfg : AuthConfig) (login : ℕ → String)
    (resp : ℕ → Option HttpResp) (st₀ : AuthState) : DownloadTrace × AuthState :=
  let (cookie₀, st₁) := ensure_cookie cfg login st₀ false
  if cookie₀ = "" then ({ result := none, forcedRefreshes := 0, requests := 0 }, st₁)
  else
    -- the shared attempt-0 failure path: forced refresh, then retry once
    let refreshAndRetry : DownloadTrace × AuthState :=
      let (cookie₁, st₂) := ensure_cookie cfg login st₁ true
      if cookie₁ = "" then ({ result := none, forcedRefreshes := 1, requests := 1 }, st₂)
      else ({ result := downloadSecondAttempt (resp 1), forcedRefreshes := 1,
              requests := 2 }, st₂)
    match resp 0 with
    | none => refreshAndRetry
    | some r =>
      if isUnauthorized r then refreshAndRetry
      else if ! is2xx r.status then refreshAndRetry
      else ({ result := some (r.contentType, r.bodyLen), forcedRefreshes := 0,
              requests := 1 }, st₁)

/-! ### Claim C1: the fatal prefix of SyncService.run

Python resolves keyword arguments and attribute accesses dynamically, so
the embedding records the names the source declares and the names the
call sites use.  `ForumScraper.__init__` (forum_scraper.py lines 44-53)
declares no `user_agent` parameter, yet `SyncService.__init__`
(sync_service.py line 47) passes one — a `TypeError` at construction.
`ForumScraper` declares no `set_forum_session_cookie` method, yet
`SyncService._ensure_forum_cookie` (line 61) calls one — an
`AttributeError` raised by the first statement of `run` (line 142),
before `get_or_create_source` is reached. -/

/-- The parameter names of `ForumScraper.__init__` after `self`. -/
def forumScraperInitParams : List String :=
  ["forum_root_url", "max_forum_pages", "max_topic_pages", "timeout_seconds",
   "max_concurrency", "requests_per_second", "forum_session_cookie"]

/-- The names bound in the body of `class ForumScraper` (its methods). -/
def forumScraperMethods : List String :=
  ["__init__", "_headers", "_allowed_by_robots", "_fetch", "normalize_url",
   "extract_topic_external_id", "extract_post_external_id", "clean_text",
   "extract_content_text", "_is_image_filename", "extract_attachments",
   "title_to_place_name", "parse_datetime_to_utc", "fetch_topics",
   "_topic_last_page", "fetch_topic_posts"]

/-- The keyword arguments `SyncService.__init__` passes to
`ForumScraper(...)` (sync_service.py lines 39-48). -/
def syncServiceScraperKwargs : List String :=
  ["forum_root_url", "max_forum_pages", "max_topic_pages", "timeout_seconds",
   "max_concurrency", "requests_per_second", "forum_session_cookie", "user_agent"]

/-- The errors the run-abort model distinguishes. -/
inductive PyError where
  /-- `TypeError: __init__() got an unexpected keyword argument ...`. -/
  | typeError (kwarg : String)
  /-- `AttributeError: 'ForumScraper' object has no attribute ...`. -/
  | attributeError (attr : String)
  /-- A failure to establish the Source row (the one abort the spec allows). -/
  | sourceRowError
  deriving DecidableEq

/-- Python's keyword-argument check for `SyncService.__init__`'s
`ForumScraper(...)` call: any keyword not among the declared parameters
raises `TypeError` before the constructor body runs. -/
def syncServiceBuildScraper : Except PyError Unit :=
  match syncServiceScraperKwargs.find? (fun k => ! forumScraperInitParams.contains k) with
  | some k => .error (.typeError k)
  | none => .ok ()

/-- Python's attribute lookup in `SyncService._ensure_forum_cookie`:
`self.scraper.set_forum_session_cookie(cookie)` raises `AttributeError`
when the class declares no such name. -/
def ensureForumCookieCall : Except PyError Unit :=
  if forumScraperMethods.contains "set_forum_session_cookie" then .ok ()
  else .error (.attributeError "set_forum_session_cookie")

/-- The fatal prefix of `SyncService.run` (lines 141-145): first
`_ensure_forum_cookie`, then the Source row, then the per-topic loop whose
failures are isolated (modelled by returning the topic list to process;
per-topic behaviour is the business of `processTopic` below).  `sourceOk`
models whether `get_or_create_source` plus its commit succeed. -/
def runFatalPrefix (sourceOk : Bool) (topicCount : ℕ) : Except PyError ℕ :=
  match ensureForumCookieCall with
  | .error e => .error e
  | .ok _ =>
    if sourceOk then .ok topicCount else .error .sourceRowError

/-! ### The per-topic pipeline of SyncService.run (lines 147-196)

The body of the topics loop — upsert the topic, upsert its posts, compute
and possibly download each post's attachments, upsert the attachment rows
and conditionally geocode — is embedded as a pure state transformer over
the database and the set of files existing under the attachments
directory.  Downloads and geocoding are oracles of the environment, fixed
per run (re-running against "unchanged upstream" means re-running with the
same oracles and inputs). -/

/-- Decimal digit characters. -/
def digitCh : ℕ → Char
  | 0 => '0' | 1 => '1' | 2 => '2' | 3 => '3' | 4 => '4'
  | 5 => '5' | 6 => '6' | 7 => '7' | 8 => '8' | 9 => '9' | _ => '*'

/-- Fuel-driven decimal rendering (most significant digit first). -/
def natDecimalAux : ℕ → ℕ → List Char
  | 0, _ => []
  | fuel + 1, n =>
    if n < 10 then [digitCh n] else natDecimalAux fuel (n / 10) ++ [digitCh (n % 10)]

/-- The decimal rendering of a natural number, as Python `str(int)`
interpolates it into an f-string. -/
def natDecimal (n : ℕ) : List Char := natDecimalAux (n + 1) n

/-- Embedding of `SyncService._safe_file_name`: every character other than
an alphanumeric, `-`, `_`, `.` or space becomes `_`; the result is
stripped, its spaces become `_`, and an empty result falls back to
`"attachment.bin"`.  (`Char.isAlphanum` is the ASCII reading of Python's
`str.isalnum`.) -/
def safe_file_name (file_name : String) : String :=
  let kept := file_name.data.map fun ch =>
    if ch.isAlphanum || ch == '-' || ch == '_' || ch == '.' || ch == ' ' then ch else '_'
  let stripped := ((kept.dropWhile (· == ' ')).reverse.dropWhile (· == ' ')).reverse
  let sanitized := String.mk (stripped.map fun c => if c == ' ' then '_' else c)
  if sanitized = "" then "attachment.bin" else sanitized

/-- The deterministic relative storage path of run's attachment step:
`f"{post.id}/{idx}_{safe_name}"`. -/
def attachmentRelPath (postId idx : ℕ) (file_name : String) : String :=
  String.mk (natDecimal postId) ++ "/" ++ String.mk (natDecimal idx) ++ "_" ++
    safe_file_name file_name

/-- An attachment as `ForumScraper.extract_attachments` returns it. -/
structure ScrapedAttachment where
  source_url : String
  file_name : String
  is_image : Bool
  deriving DecidableEq

/-- A post as `ForumScraper.fetch_topic_posts` returns it (attachments
deduplicated by source URL within the post, posts by external id). -/
structure ScrapedPost where
  external_id : String
  author : String
  posted_at_utc : ℤ
  content_text : String
  url : String
  attachments : List ScrapedAttachment
  deriving DecidableEq

/-- A topic as `ForumScraper.fetch_topics` returns it, together with the
posts its page window yields on this run. -/
structure ScrapedTopic where
  external_id : String
  title : String
  url : String
  place_name : String
  posts : List ScrapedPost
  deriving DecidableEq

/-- The run environment: the `download_attachments` setting, the geocode
TTL, the outcome `_download_attachment` would produce per source URL
(`some (content-type, size)` on success), and the outcome the geocoding
provider would produce per place name. -/
structure SyncEnv where
  download_attachments : Bool
  geocodeTtl : ℤ
  download : String → Option (Option String × ℕ)
  geocode : String → Option GeocodeResult

/-- The mutable state a run works on: the database and the relative paths
existing under the attachments directory. -/
structure SyncState where
  db : Db
  files : List String
  deriving DecidableEq

/-- The attachment step of run (lines 168-187) for one `(idx, attachment)`
pair of `enumerate(p.attachments)`: compute the path; when downloading is
enabled and the file is absent, attempt the download (a success writes the
file and yields content type and size, a failure changes nothing); then
upsert the row, its local path set only if the file now exists. -/
def processAttachment (env : SyncEnv) (postId : ℕ) (st : SyncState)
    (ia : ℕ × ScrapedAttachment) : SyncState :=
  let rel := attachmentRelPath postId ia.1 ia.2.file_name
  let dl : List String × Option String × Option ℕ :=
    if env.download_attachments && ! st.files.contains rel then
      match env.download ia.2.source_url with
      | some (m, s) => (rel :: st.files, m, some s)
      | none => (st.files, none, none)
    else (st.files, none, none)
  let db' := (upsert_post_attachment st.db postId ia.2.source_url ia.2.file_name
    ia.2.is_image (if dl.1.contains rel then some rel else none) dl.2.1 dl.2.2).1
  ⟨db', dl.1⟩

/-- The post step of run (lines 158-187): upsert the post, then fold the
attachment step over `enumerate(p.attachments)` using the post row's id. -/
def processPost (env : SyncEnv) (topicId : ℕ) (st : SyncState) (p : ScrapedPost) :
    SyncState :=
  let r := upsert_post st.db topicId p.external_id p.author p.posted_at_utc
    p.content_text p.url
  p.attachments.enum.foldl (processAttachment env r.2.id) ⟨r.1, st.files⟩

/-- The topic step of run (lines 147-196): upsert the topic, process its
posts, then — only when `geocode_expired` holds on the topic object — ask
the provider and, on a non-none result, write the geocode fields and stamp
`geocode_updated_at := now` on the topic's row. -/
def processTopic (env : SyncEnv) (now : ℤ) (sid : ℕ) (st : SyncState)
    (T : ScrapedTopic) : SyncState :=
  let r := upsert_topic st.db now sid T.external_id T.title T.url T.place_name
  let st1 := T.posts.foldl (processPost env r.2.id) ⟨r.1, st.files⟩
  let db2 :=
    if geocode_expired env.geocodeTtl now r.2 then
      match env.geocode r.2.place_name with
      | some geo =>
        { st1.db with
            topics := updateFirst (topicKey sid T.external_id)
              (fun t => { t with geocoded_lat := some geo.lat,
                                 geocoded_lon := some geo.lon,
                                 geocode_provider := some geo.provider,
                                 geocode_confidence := some geo.confidence,
                                 geocode_updated_at := some now }) st1.db.topics }
      | none => st1.db
    else st1.db
  ⟨db2, st1.files⟩

/-- The topics loop of run over the scraped topic list (in the pure model
no step throws, so the per-topic exception isolation never fires). -/
def runTopics (env : SyncEnv) (now : ℤ) (sid : ℕ) (st : SyncState)
    (ts : List ScrapedTopic) : SyncState :=
  ts.foldl (processTopic env now sid) st

/-- A topic row with only its `last_seen_at` refreshed. -/
def bumpTopic (sid : ℕ) (eid : String) (now : ℤ) (st : SyncState) : SyncState :=
  ⟨{ st.db with
      topics := updateFirst (topicKey sid eid)
        (fun t => { t with last_seen_at := now }) st.db.topics }, st.files⟩

/-- Refresh `last_seen_at` of every listed topic's row. -/
def bumpAll (sid : ℕ) (now : ℤ) (st : SyncState) (ts : List ScrapedTopic) : SyncState :=
  ts.foldl (fun s T => bumpTopic sid T.external_id now s) st

/-! #### Claim C2, counterexample -/

/-- A run environment with downloads disabled and a provider that always
answers none. -/
def envC2 : SyncEnv := ⟨false, 1000, fun _ => none, fun _ => none⟩

/-- A single scraped topic with no posts. -/
def topicC2 : ScrapedTopic := ⟨"1", "Ozero", "https://f/threads/o.1/", "Ozero", []⟩

/-- The state after a first run at instant 0 from an empty database. -/
def firstRunC2 : SyncState := runTopics envC2 0 1 ⟨emptyDb, []⟩ [topicC2]

/-- The state after a second, identical run at instant 1. -/
def secondRunC2 : SyncState := runTopics envC2 1 1 firstRunC2 [topicC2]

/-- `digitsToNat` with an explicit accumulator. -/
def valAux (a : ℕ) (l : List Char) : ℕ :=
  l.foldl (fun x c => 10 * x + (c.toNat - '0'.toNat)) a

/-! #### Database well-formedness: distinct row ids below the counters -/

structure DbWF (db : Db) : Prop where
  topicIds : (db.topics.map TopicRow.id).Pairwise (· ≠ ·)
  topicIdLt : ∀ t ∈ db.topics, t.id < db.nextTopicId
  postIds : (db.posts.map PostRow.id).Pairwise (· ≠ ·)
  postIdLt : ∀ p ∈ db.posts, p.id < db.nextPostId

/-! #### What a completed run step leaves behind

`attachmentReflected` records what the attachment step of run guarantees
about an observed attachment: its row exists under `(post id, source url)`
with the observed name and image flag; when its computed storage path
exists on disk the row's local path points at it; and when downloading is
enabled and the download oracle can deliver it, the file does exist
(either it already did or the step downloaded it).  `postReflected` and
`topicReflected` lift this row-by-row to posts and topics. -/

def attachmentReflected (env : SyncEnv) (atts : List AttachmentRow)
    (files : List String) (pid idx : ℕ) (att : ScrapedAttachment) : Prop :=
  ∃ arow, findAttachment atts pid att.source_url = some arow ∧
    arow.file_name = att.file_name ∧ arow.is_image = att.is_image ∧
    (attachmentRelPath pid idx att.file_name ∈ files →
      arow.local_rel_path = some (attachmentRelPath pid idx att.file_name)) ∧
    (env.download_attachments = true → env.download att.source_url ≠ none →
      attachmentRelPath pid idx att.file_name ∈ files)

def postReflected (env : SyncEnv) (posts : List PostRow) (atts : List AttachmentRow)
    (files : List String) (tid : ℕ) (p : ScrapedPost) : Prop :=
  ∃ prow, findPost posts tid p.external_id = some prow ∧
    prow.author = p.author ∧ prow.posted_at_utc = p.posted_at_utc ∧
    prow.content_text = p.content_text ∧ prow.url = p.url ∧
    ∀ ia ∈ p.attachments.enum, attachmentReflected env atts files prow.id ia.1 ia.2

def topicReflected (env : SyncEnv) (sid : ℕ) (st : SyncState) (T : ScrapedTopic) : Prop :=
  ∃ trow, findTopic st.db.topics sid T.external_id = some trow ∧
    trow.title = T.title ∧ trow.url = T.url ∧ trow.place_name = T.place_name ∧
    ∀ p ∈ T.posts, postReflected env st.db.posts st.db.attachments st.files trow.id p

/-! #### The run level -/

/-- The geocode block is inert on a topic at instant `now`: its stored row
(if any) is within the TTL, or the provider has no answer for its place. -/
def geoQuiet (env : SyncEnv) (now : ℤ) (sid : ℕ) (db : Db) (T : ScrapedTopic) : Prop :=
  ∀ trow, findTopic db.topics sid T.external_id = some trow →
    geocode_expired env.geocodeTtl now trow = false ∨
      env.geocode trow.place_name = none

/-! #### Everything `bumpAll` does -/

/-- Equality of topic rows on every stored column except `last_seen_at`. -/
def sameButSeen (a b : TopicRow) : Prop :=
  a.id = b.id ∧ a.source_id = b.source_id ∧ a.external_id = b.external_id ∧
  a.title = b.title ∧ a.url = b.url ∧ a.place_name = b.place_name ∧
  a.geocoded_lat = b.geocoded_lat ∧ a.geocoded_lon = b.geocoded_lon ∧
  a.geocode_provider = b.geocode_provider ∧ a.geocode_confidence = b.geocode_confidence ∧
  a.geocode_updated_at = b.geocode_updated_at

/-! ### Helper lemmas on character lists and folds -/

theorem findDotDigits_of_not_mem {l : List Char} (h : '.' ∉ l) : findDotDigits l = none := by
  induction l with
  | nil => rfl
  | cons c rest ih =>
    have hc : ¬ c = '.' := fun hh => h (hh ▸ List.mem_cons_self c rest)
    simp only [findDotDigits, if_neg hc]
    exact ih fun hm => h (List.mem_cons_of_mem c hm)

theorem takeWhile_append_eq (p : Char → Bool) (l₁ l₂ : List Char)
    (h1 : ∀ c ∈ l₁, p c = true) (h2 : ∀ c, l₂.head? = some c → p c = false) :
    (l₁ ++ l₂).takeWhile p = l₁ := by
  induction l₁ with
  | nil =>
    cases l₂ with
    | nil => rfl
    | cons c t => simp [List.takeWhile_cons, h2 c rfl]
  | cons c t ih =>
    simp [List.takeWhile_cons, h1 c (List.mem_cons_self c t),
      ih fun x hx => h1 x (List.mem_cons_of_mem c hx)]

theorem foldl_max_eq :
    ∀ (l : List ℕ) (a M : ℕ), (M ∈ l ∨ M = a) → (∀ x ∈ l, x ≤ M) → a ≤ M →
      l.foldl max a = M
  | [], _, M, hmem, _, ha => by
    rw [List.foldl_nil]
    rcases hmem with h | h
    · exact absurd h (List.not_mem_nil M)
    · omega
  | c :: t, a, M, hmem, hub, ha => by
    rw [List.foldl_cons]
    have hc : c ≤ M := hub c (List.mem_cons_self c t)
    refine foldl_max_eq t (max a c) M ?_
      (fun x hx => hub x (List.mem_cons_of_mem c hx)) (max_le ha hc)
    rcases hmem with h | h
    · rcases List.mem_cons.mp h with h' | h'
      · right; omega
      · exact Or.inl h'
    · right; omega

/-! ### Claim C6 -/

theorem findDotDigits_first_match (a ds b : List Char) (ha : '.' ∉ a) (hds : ds ≠ [])
    (hdig : ∀ c ∈ ds, c.isDigit = true) (hb : b = [] ∨ b.head? = some '/') :
    findDotDigits (a ++ '.' :: (ds ++ b)) = some ds := by
  induction a with
  | nil =>
    have hbh : ∀ c, b.head? = some c → Char.isDigit c = false := by
      intro c hc
      rcases hb with h | h
      · rw [h] at hc; exact absurd hc (by simp)
      · rw [h] at hc; injection hc with hc'; rw [← hc']; rfl
    have ht : (ds ++ b).takeWhile Char.isDigit = ds := takeWhile_append_eq _ _ _ hdig hbh
    have hd : (ds ++ b).drop ds.length = b := List.drop_left ds b
    simp only [List.nil_append, findDotDigits, if_pos rfl, ht, hd]
    have hcond : ds ≠ [] ∧ (b = [] ∨ b.head? = some '/') := ⟨hds, hb⟩
    exact if_pos hcond
  | cons c t ih =>
    have hc : ¬ c = '.' := fun hh => ha (hh ▸ List.mem_cons_self c t)
    simp only [List.cons_append, findDotDigits, if_neg hc]
    exact ih fun hm => ha (List.mem_cons_of_mem c hm)

/-- Claim C6 fails on the code: `extract_topic_external_id` returns the digit
run of the *first* occurrence of a dot-digits-slash shape, not the last run
of digits preceding a trailing slash.  On `"https://f/a.1/b.2/"` the code
extracts `"1"` while the claimed rule extracts `"2"`. -/
theorem C6_counterexample :
    extract_topic_external_id "https://f/a.1/b.2/" = "1" ∧
    specTopicExternalId "https://f/a.1/b.2/" = "2" ∧
    extract_topic_external_id "https://f/a.1/b.2/" ≠
      specTopicExternalId "https://f/a.1/b.2/" := by
  refine ⟨?_, ?_, ?_⟩ <;> decide

theorem takeWhile_all (p : Char → Bool) :
    ∀ l : List Char, ∀ x ∈ l.takeWhile p, p x = true
  | [], x, hx => absurd hx (List.not_mem_nil x)
  | c :: rest, x, hx => by
    by_cases hpc : p c = true
    · rw [List.takeWhile_cons, if_pos hpc] at hx
      rcases List.mem_cons.mp hx with rfl | hx'
      · exact hpc
      · exact takeWhile_all p rest x hx'
    · rw [List.takeWhile_cons, if_neg hpc] at hx
      exact absurd hx (List.not_mem_nil x)

theorem takeWhile_drop_decomp (p : Char → Bool) :
    ∀ l : List Char, l = l.takeWhile p ++ l.drop (l.takeWhile p).length
  | [] => rfl
  | c :: rest => by
    by_cases hpc : p c = true
    · rw [List.takeWhile_cons, if_pos hpc]
      simp only [List.length_cons, List.drop_succ_cons, List.cons_append]
      exact congrArg (fun t => c :: t) (takeWhile_drop_decomp p rest)
    · rw [List.takeWhile_cons, if_neg hpc]
      simp

/-- Where the regex does not match, no valid dot-digits occurrence exists at
any position of the URL. -/
theorem findDotDigits_none_no_match :
    ∀ l : List Char, findDotDigits l = none →
      ∀ a ds b, ¬ dotDigitsAt l a ds b
  | [], _, a, ds, b, hm => by
    obtain ⟨hl, _, _, _⟩ := hm
    cases a <;> simp at hl
  | c :: rest, hnone, a, ds, b, hm => by
    obtain ⟨hl, hds, hdig, hb⟩ := hm
    cases a with
    | nil =>
      simp only [List.nil_append] at hl
      injection hl with hc hrest
      have hsome : findDotDigits (c :: rest) = some ds := by
        rw [hc, hrest]
        have h0 := findDotDigits_first_match [] ds b (List.not_mem_nil '.') hds hdig hb
        simpa using h0
      rw [hsome] at hnone
      exact Option.noConfusion hnone
    | cons x a' =>
      injection hl with hcx hrest
      have hrn : findDotDigits rest = none := by
        by_cases hc : c = '.'
        · simp only [findDotDigits, if_pos hc] at hnone
          split at hnone
          · simp at hnone
          · exact hnone
        · simp only [findDotDigits, if_neg hc] at hnone
          exact hnone
      exact findDotDigits_none_no_match rest hrn a' ds b ⟨hrest, hds, hdig, hb⟩

/-- Where the regex matches, it captures a valid dot-digits occurrence whose
prefix is shortest among all valid occurrences: the leftmost one. -/
theorem findDotDigits_some_leftmost :
    ∀ l ds : List Char, findDotDigits l = some ds →
      ∃ a b, dotDigitsAt l a ds b ∧
        ∀ a' ds' b', dotDigitsAt l a' ds' b' → a.length ≤ a'.length
  | [], ds, h => by simp [findDotDigits] at h
  | c :: rest, ds, h => by
    by_cases hc : c = '.'
    · by_cases hcond : rest.takeWhile Char.isDigit ≠ [] ∧
          (rest.drop (rest.takeWhile Char.isDigit).length = [] ∨
            (rest.drop (rest.takeWhile Char.isDigit).length).head? = some '/')
      · have hds : ds = rest.takeWhile Char.isDigit := by
          simp only [findDotDigits, if_pos hc, if_pos hcond] at h
          injection h with h'
          exact h'.symm
        refine ⟨[], rest.drop (rest.takeWhile Char.isDigit).length,
          ⟨?_, ?_, ?_, hcond.2⟩, ?_⟩
        · rw [List.nil_append, hc, hds]
          conv_lhs => rw [takeWhile_drop_decomp Char.isDigit rest]
        · rw [hds]
          exact hcond.1
        · rw [hds]
          intro x hx
          exact takeWhile_all Char.isDigit rest x hx
        · intro a' ds' b' _
          simp
      · have hr : findDotDigits rest = some ds := by
          simp only [findDotDigits, if_pos hc, if_neg hcond] at h
          exact h
        obtain ⟨a₁, b₁, ⟨hl₁, hds₁, hdig₁, hb₁⟩, hmin₁⟩ :=
          findDotDigits_some_leftmost rest ds hr
        refine ⟨c :: a₁, b₁, ⟨?_, hds₁, hdig₁, hb₁⟩, ?_⟩
        · rw [List.cons_append, hl₁]
        · intro a' ds' b' hm'
          obtain ⟨hl', hds', hdig', hb'⟩ := hm'
          cases a' with
          | nil =>
            exfalso
            simp only [List.nil_append] at hl'
            injection hl' with hc' hrest'
            have hbh : ∀ ch, b'.head? = some ch → Char.isDigit ch = false := by
              intro ch hch
              rcases hb' with hb0 | hb0
              · rw [hb0] at hch
                exact absurd hch (by simp)
              · rw [hb0] at hch
                injection hch with hch'
                rw [← hch']
                rfl
            have ht : rest.takeWhile Char.isDigit = ds' := by
              rw [hrest']
              exact takeWhile_append_eq _ _ _ hdig' hbh
            have hdd : rest.drop (rest.takeWhile Char.isDigit).length = b' := by
              rw [ht, hrest']
              exact List.drop_left ds' b'
            refine hcond ⟨?_, ?_⟩
            · rw [ht]
              exact hds'
            · rw [hdd]
              exact hb'
          | cons x a₂ =>
            injection hl' with hx hrest'
            have hle := hmin₁ a₂ ds' b' ⟨hrest', hds', hdig', hb'⟩
            simp only [List.length_cons]
            omega
    · have hr : findDotDigits rest = some ds := by
        simp only [findDotDigits, if_neg hc] at h
        exact h
      obtain ⟨a₁, b₁, ⟨hl₁, hds₁, hdig₁, hb₁⟩, hmin₁⟩ :=
        findDotDigits_some_leftmost rest ds hr
      refine ⟨c :: a₁, b₁, ⟨?_, hds₁, hdig₁, hb₁⟩, ?_⟩
      · rw [List.cons_append, hl₁]
      · intro a' ds' b' hm'
        obtain ⟨hl', hds', hdig', hb'⟩ := hm'
        cases a' with
        | nil =>
          exfalso
          simp only [List.nil_append] at hl'
          injection hl' with hc' hrest'
          exact hc hc'
        | cons x a₂ =>
          injection hl' with hx hrest'
          have hle := hmin₁ a₂ ds' b' ⟨hrest', hds', hdig', hb'⟩
          simp only [List.length_cons]
          omega

/-- Amended claim C6, over every topic URL with no side condition: either the
URL admits a valid occurrence of dot–digits–(slash or end), and then the
extracted topic external id is the digit run of the first (leftmost) such
occurrence; or it admits none, and the id is the last path segment of the
URL with trailing slashes stripped. -/
theorem C6_theorem (url : String) :
    (∃ a ds b, dotDigitsAt url.data a ds b ∧
      (∀ a' ds' b', dotDigitsAt url.data a' ds' b' → a.length ≤ a'.length) ∧
      extract_topic_external_id url = String.mk ds) ∨
    ((∀ a ds b, ¬ dotDigitsAt url.data a ds b) ∧
      extract_topic_external_id url =
        String.mk (afterLastSlash (rstripSlashes url.data))) := by
  cases h : findDotDigits url.data with
  | some ds =>
    left
    obtain ⟨a, b, hm, hmin⟩ := findDotDigits_some_leftmost url.data ds h
    exact ⟨a, ds, b, hm, hmin, by rw [extract_topic_external_id, h]⟩
  | none =>
    right
    exact ⟨fun a ds b hm => findDotDigits_none_no_match url.data h a ds b hm,
      by rw [extract_topic_external_id, h]⟩

/-- Witness: the amended rule on URLs whose dotted hostname puts earlier
non-matching dots before the match — the leftmost valid occurrence is taken
(`"123"`, skipping `www.x.ru`) — and on a dotted URL with no valid
occurrence at all, where the last-path-segment fallback applies. -/
theorem C6_witness :
    extract_topic_external_id "https://www.x.ru/threads/a.123/" = "123" ∧
    extract_topic_external_id "https://www.x.ru/threads/abc/" = "abc" ∧
    extract_topic_external_id "https://www.x.ru/threads/abc/" =
      String.mk (afterLastSlash (rstripSlashes "https://www.x.ru/threads/abc/".data)) := by
  refine ⟨?_, ?_, ?_⟩ <;> decide

/-! ### Claim C7 -/

/-- Claim C7: the post pages fetched for a topic are exactly the pages from
`max 1 (lastPage - maxTopicPages + 1)` through `lastPage`; the last page is
1 when the first-page fetch fails or no page-number link is found, and is
the highest page number among the page links otherwise (any highest linked
number being at least 1). -/
theorem C7_theorem :
    (∀ lastPage maxTopicPages p : ℤ,
        p ∈ fetchedPages lastPage maxTopicPages ↔
          max 1 (lastPage - maxTopicPages + 1) ≤ p ∧ p ≤ lastPage) ∧
    topic_last_page none = 1 ∧
    (∀ hrefs, pageNumbersOf hrefs = [] → topic_last_page (some hrefs) = 1) ∧
    (∀ hrefs M, M ∈ pageNumbersOf hrefs → (∀ m ∈ pageNumbersOf hrefs, m ≤ M) →
        1 ≤ M → topic_last_page (some hrefs) = M) := by
  refine ⟨?_, rfl, ?_, ?_⟩
  · intro lastPage maxTopicPages p
    rw [fetchedPages]
    set s := max 1 (lastPage - maxTopicPages + 1) with hs
    have h1 : (1 : ℤ) ≤ s := le_max_left _ _
    have h2 : lastPage - maxTopicPages + 1 ≤ s := le_max_right _ _
    constructor
    · intro hp
      rcases List.mem_map.mp hp with ⟨i, hi, hip⟩
      have hi' : i < (lastPage + 1 - s).toNat := List.mem_range.mp hi
      omega
    · rintro ⟨hps, hpl⟩
      refine List.mem_map.mpr ⟨(p - s).toNat, List.mem_range.mpr ?_, ?_⟩
      · omega
      · omega
  · intro hrefs h
    simp [topic_last_page, h]
  · intro hrefs M hmem hub hM
    exact foldl_max_eq _ 1 M (Or.inl hmem) hub hM

/-- Witness: a concrete topic whose first page links pages 3 and 7 has last
page 7, and with a window of 2 pages the fetched pages of a 12-page topic
are 11 and 12. -/
theorem C7_witness :
    topic_last_page (some ["/threads/x/page-7", "/threads/x/page-3"]) = 7 ∧
    (11 : ℤ) ∈ fetchedPages 12 2 := by
  constructor
  · exact C7_theorem.2.2.2 ["/threads/x/page-7", "/threads/x/page-3"] 7
      (by decide) (by decide) (by decide)
  · exact (C7_theorem.1 12 2 11).mpr (by decide)

/-! ### Claim C3 -/

/-- Claim C3: a `_fetch` call makes at most 3 attempts; when every attempt
fails (transport error or non-2xx response) the trace is exactly request 1,
a backoff of 1 second, request 2, a backoff of 2 seconds, request 3, and
the call returns the empty body instead of raising (the embedding is a
total function: every exception of an attempt is caught by the loop). -/
theorem C3_theorem :
    (∀ (resp : ℕ → Option String) (robotsAllowed : Bool),
        requestCount (fetch resp robotsAllowed).1 ≤ 3) ∧
    (∀ resp : ℕ → Option String, resp 1 = none → resp 2 = none → resp 3 = none →
        fetch resp true =
          ([.request 1, .backoff 1, .request 2, .backoff 2, .request 3], "")) := by
  constructor
  · intro resp robotsAllowed
    cases robotsAllowed with
    | false => simp [fetch, requestCount]
    | true =>
      rcases h1 : resp 1 with _ | b1 <;> rcases h2 : resp 2 with _ | b2 <;>
        rcases h3 : resp 3 with _ | b3 <;>
        simp [fetch, fetchRetries, fetchLoop, h1, h2, h3, requestCount]
  · intro resp h1 h2 h3
    simp [fetch, fetchRetries, fetchLoop, h1, h2, h3]

/-- Witness: the all-failures oracle produces the three-attempt trace and
an empty body. -/
theorem C3_witness :
    requestCount (fetch (fun _ => none) true).1 ≤ 3 ∧
    fetch (fun _ => none) true =
      ([.request 1, .backoff 1, .request 2, .backoff 2, .request 3], "") :=
  ⟨C3_theorem.1 _ _, C3_theorem.2 (fun _ => none) rfl rfl rfl⟩

/-! ### Claim C5 -/

/-- Claim C5 fails on the code: with an API key configured, a transport
error or a non-2xx response makes both `geocode` implementations raise
(there is no try/except around the HTTP call), instead of returning none. -/
theorem C5_counterexample :
    GoogleGeocoder.geocode "key" .transportError ≠ .ok none ∧
    GoogleGeocoder.geocode "key" (.response 500 ⟨"OK", []⟩) ≠ .ok none ∧
    YandexGeocoder.geocode "key" .transportError ≠ .ok none ∧
    YandexGeocoder.geocode "key" (.response 500 ⟨[]⟩) ≠ .ok none := by
  refine ⟨?_, ?_, ?_, ?_⟩ <;> simp [GoogleGeocoder.geocode, YandexGeocoder.geocode, is2xx]

/-- Amended claim C5: both geocoder implementations return none, and do not
raise, when the configured API key is missing — and also when a 2xx response
carries zero candidates; but when the key is present, a transport error or a
non-2xx response raises the underlying HTTP exception to the caller instead
of yielding none (in a sync run it is then contained by the per-topic
handler). -/
theorem C5_theorem :
    (∀ http, GoogleGeocoder.geocode "" http = .ok none) ∧
    (∀ http, YandexGeocoder.geocode "" http = .ok none) ∧
    (∀ apiKey code payload, apiKey ≠ "" → is2xx code = true →
        (payload.status ≠ "OK" ∨ payload.results = []) →
        GoogleGeocoder.geocode apiKey (.response code payload) = .ok none) ∧
    (∀ apiKey code, apiKey ≠ "" → is2xx code = true →
        YandexGeocoder.geocode apiKey (.response code ⟨[]⟩) = .ok none) ∧
    (∀ apiKey, apiKey ≠ "" →
        (GoogleGeocoder.geocode apiKey .transportError).isOk = false ∧
        (YandexGeocoder.geocode apiKey .transportError).isOk = false) ∧
    (∀ apiKey code payload payload', apiKey ≠ "" → is2xx code = false →
        (GoogleGeocoder.geocode apiKey (.response code payload)).isOk = false ∧
        (YandexGeocoder.geocode apiKey (.response code payload')).isOk = false) := by
  refine ⟨?_, ?_, ?_, ?_, ?_, ?_⟩
  · intro http; simp [GoogleGeocoder.geocode]
  · intro http; simp [YandexGeocoder.geocode]
  · intro apiKey code payload hk hc hp
    simp only [GoogleGeocoder.geocode, if_neg hk, hc]
    simp [hp, Except.ok.injEq]
  · intro apiKey code hk hc
    simp [YandexGeocoder.geocode, if_neg hk, hc]
  · intro apiKey hk
    simp [GoogleGeocoder.geocode, YandexGeocoder.geocode, if_neg hk, Except.isOk, Except.toBool]
  · intro apiKey code payload payload' hk hc
    simp [GoogleGeocoder.geocode, YandexGeocoder.geocode, if_neg hk, hc, Except.isOk, Except.toBool]

/-- Witness: the amended behaviour at concrete inputs — missing key, empty
2xx candidate list, and a keyed transport error. -/
theorem C5_witness :
    GoogleGeocoder.geocode "" .transportError = .ok none ∧
    YandexGeocoder.geocode "k" (.response 200 ⟨[]⟩) = .ok none ∧
    (GoogleGeocoder.geocode "k" .transportError).isOk = false := by
  refine ⟨C5_theorem.1 _, C5_theorem.2.2.2.1 "k" 200 (by decide) (by decide), ?_⟩
  exact (C5_theorem.2.2.2.2.1 "k" (by decide)).1

/-! ### Lemmas about updateFirst -/

theorem length_updateFirst {α : Type} (p : α → Bool) (f : α → α) (l : List α) :
    (updateFirst p f l).length = l.length := by
  induction l with
  | nil => rfl
  | cons x xs ih =>
    by_cases h : p x = true
    · simp [updateFirst, h]
    · simp [updateFirst, h, ih]

theorem find?_updateFirst_self {α : Type} (p : α → Bool) (f : α → α) (l : List α)
    (a : α) (h : l.find? p = some a) (hf : p (f a) = true) :
    (updateFirst p f l).find? p = some (f a) := by
  induction l with
  | nil => simp at h
  | cons x xs ih =>
    by_cases hx : p x = true
    · rw [List.find?_cons_of_pos _ hx] at h
      injection h with h'
      subst h'
      simp [updateFirst, hx, List.find?_cons_of_pos _ hf]
    · rw [List.find?_cons_of_neg _ (by simp [hx])] at h
      simp only [updateFirst, if_neg hx]
      rw [List.find?_cons_of_neg _ (by simp [hx])]
      exact ih h

theorem countP_updateFirst {α : Type} (p q : α → Bool) (f : α → α) (l : List α)
    (hq : ∀ x, q (f x) = q x) : (updateFirst p f l).countP q = l.countP q := by
  induction l with
  | nil => rfl
  | cons x xs ih =>
    by_cases h : p x = true
    · simp [updateFirst, h, List.countP_cons, hq]
    · simp [updateFirst, h, List.countP_cons, ih]

theorem find?_updateFirst_disjoint {α : Type} (p q : α → Bool) (f : α → α) (l : List α)
    (hpq : ∀ x, q x = true → p x = false) (hpf : ∀ x, q x = true → p (f x) = false) :
    (updateFirst q f l).find? p = l.find? p := by
  induction l with
  | nil => rfl
  | cons x xs ih =>
    by_cases h : q x = true
    · simp only [updateFirst, if_pos h]
      rw [List.find?_cons_of_neg _ (by simp [hpf x h]),
        List.find?_cons_of_neg _ (by simp [hpq x h])]
    · simp only [updateFirst, if_neg h]
      by_cases hp : p x = true
      · rw [List.find?_cons_of_pos _ hp, List.find?_cons_of_pos _ hp]
      · rw [List.find?_cons_of_neg _ (by simp [hp]),
          List.find?_cons_of_neg _ (by simp [hp])]
        exact ih

theorem updateFirst_eq_self {α : Type} (p : α → Bool) (f : α → α) (l : List α)
    (a : α) (h : l.find? p = some a) (hfix : f a = a) : updateFirst p f l = l := by
  induction l with
  | nil => rfl
  | cons x xs ih =>
    by_cases hx : p x = true
    · rw [List.find?_cons_of_pos _ hx] at h
      injection h with h'
      subst h'
      simp [updateFirst, hx, hfix]
    · rw [List.find?_cons_of_neg _ (by simp [hx])] at h
      simp [updateFirst, hx, ih h]

/-! ### Claim C8 -/

/-- Claim C8: on an existing `(source_id, external_id)` row, `upsert_topic`
refreshes `title`, `url`, `place_name` and `last_seen_at`, leaves the five
geocode columns (and the id) unchanged, keeps the row count, keeps the row
reachable under its key, and does not add a second row for that key. -/
theorem C8_theorem (db : Db) (now : ℤ) (sid : ℕ) (eid title url place : String)
    (t₀ : TopicRow) (h : findTopic db.topics sid eid = some t₀) :
    (upsert_topic db now sid eid title url place).2.title = title ∧
    (upsert_topic db now sid eid title url place).2.url = url ∧
    (upsert_topic db now sid eid title url place).2.place_name = place ∧
    (upsert_topic db now sid eid title url place).2.last_seen_at = now ∧
    (upsert_topic db now sid eid title url place).2.id = t₀.id ∧
    (upsert_topic db now sid eid title url place).2.geocoded_lat = t₀.geocoded_lat ∧
    (upsert_topic db now sid eid title url place).2.geocoded_lon = t₀.geocoded_lon ∧
    (upsert_topic db now sid eid title url place).2.geocode_provider = t₀.geocode_provider ∧
    (upsert_topic db now sid eid title url place).2.geocode_confidence = t₀.geocode_confidence ∧
    (upsert_topic db now sid eid title url place).2.geocode_updated_at = t₀.geocode_updated_at ∧
    (upsert_topic db now sid eid title url place).1.topics.length = db.topics.length ∧
    findTopic (upsert_topic db now sid eid title url place).1.topics sid eid =
      some (upsert_topic db now sid eid title url place).2 ∧
    (upsert_topic db now sid eid title url place).1.topics.countP (topicKey sid eid) =
      db.topics.countP (topicKey sid eid) := by
  have hkey : topicKey sid eid t₀ = true := List.find?_some h
  have hkey' : topicKey sid eid (topicRowRefresh title url place now t₀) = true := by
    simpa [topicKey, topicRowRefresh] using hkey
  have hu : upsert_topic db now sid eid title url place =
      ({ db with
          topics := updateFirst (topicKey sid eid)
            (topicRowRefresh title url place now) db.topics },
       topicRowRefresh title url place now t₀) := by
    simp only [upsert_topic, h]
  rw [hu]
  refine ⟨rfl, rfl, rfl, rfl, rfl, rfl, rfl, rfl, rfl, rfl, ?_, ?_, ?_⟩
  · exact length_updateFirst _ _ _
  · exact find?_updateFirst_self _ _ _ t₀ h hkey'
  · exact countP_updateFirst _ _ _ _ fun x => by simp [topicKey, topicRowRefresh]

/-- Witness: a one-row database whose topic is re-observed with a new
title keeps its geocode fields and row count. -/
theorem C8_witness :
    (upsert_topic geocodedTopicDb 5 1 "7" "new" "u2" "p2").2.geocoded_lat = some 55 ∧
    (upsert_topic geocodedTopicDb 5 1 "7" "new" "u2" "p2").2.title = "new" ∧
    (upsert_topic geocodedTopicDb 5 1 "7" "new" "u2" "p2").1.topics.length =
      geocodedTopicDb.topics.length := by
  have h : findTopic geocodedTopicDb.topics 1 "7" = some geocodedTopicRow := by decide
  have hc := C8_theorem geocodedTopicDb 5 1 "7" "new" "u2" "p2" geocodedTopicRow h
  exact ⟨hc.2.2.2.2.2.1.trans (by decide), hc.1, hc.2.2.2.2.2.2.2.2.2.2.1⟩

/-! ### Claim C10 -/

/-- Claim C10: on an existing `(post_id, source_url)` row,
`upsert_post_attachment` leaves `local_rel_path`, `mime_type` and
`size_bytes` at their stored values whenever the corresponding argument is
`None`, so a failed re-download never erases earlier download metadata;
the row stays reachable under its key and no duplicate row is created. -/
theorem C10_theorem (db : Db) (pid : ℕ) (surl fname : String) (isimg : Bool)
    (lrp : Option String) (mt : Option String) (sb : Option ℕ) (a₀ : AttachmentRow)
    (h : findAttachment db.attachments pid surl = some a₀) :
    (lrp = none →
      (upsert_post_attachment db pid surl fname isimg lrp mt sb).2.local_rel_path =
        a₀.local_rel_path) ∧
    (mt = none →
      (upsert_post_attachment db pid surl fname isimg lrp mt sb).2.mime_type =
        a₀.mime_type) ∧
    (sb = none →
      (upsert_post_attachment db pid surl fname isimg lrp mt sb).2.size_bytes =
        a₀.size_bytes) ∧
    (upsert_post_attachment db pid surl fname isimg lrp mt sb).2.file_name = fname ∧
    (upsert_post_attachment db pid surl fname isimg lrp mt sb).2.is_image = isimg ∧
    (upsert_post_attachment db pid surl fname isimg lrp mt sb).1.attachments.length =
      db.attachments.length ∧
    findAttachment (upsert_post_attachment db pid surl fname isimg lrp mt sb).1.attachments
      pid surl = some (upsert_post_attachment db pid surl fname isimg lrp mt sb).2 := by
  have hkey : attachmentKey pid surl a₀ = true := List.find?_some h
  have hu : upsert_post_attachment db pid surl fname isimg lrp mt sb =
      ({ db with
          attachments := updateFirst (attachmentKey pid surl)
            (attachmentRowUpdate fname isimg lrp mt sb) db.attachments },
       attachmentRowUpdate fname isimg lrp mt sb a₀) := by
    simp only [upsert_post_attachment, h]
  rw [hu]
  refine ⟨?_, ?_, ?_, rfl, rfl, ?_, ?_⟩
  · rintro rfl; rfl
  · rintro rfl; rfl
  · rintro rfl; rfl
  · exact length_updateFirst _ _ _
  · refine find?_updateFirst_self _ _ _ a₀ h ?_
    simpa [attachmentKey] using hkey

/-- Witness: re-observing a downloaded attachment with all-`none` download
arguments keeps its stored path, MIME type and size. -/
theorem C10_witness :
    (upsert_post_attachment downloadedAttachmentDb 3 "https://f/attachments/9/" "a.jpg"
        true none none none).2.local_rel_path = some "3/0_a.jpg" ∧
    (upsert_post_attachment downloadedAttachmentDb 3 "https://f/attachments/9/" "a.jpg"
        true none none none).2.mime_type = some "image/jpeg" ∧
    (upsert_post_attachment downloadedAttachmentDb 3 "https://f/attachments/9/" "a.jpg"
        true none none none).2.size_bytes = some 512 := by
  have h : findAttachment downloadedAttachmentDb.attachments 3 "https://f/attachments/9/" =
      some downloadedAttachmentRow := by decide
  have hc := C10_theorem downloadedAttachmentDb 3 "https://f/attachments/9/" "a.jpg"
    true none none none downloadedAttachmentRow h
  exact ⟨(hc.1 rfl).trans (by decide), (hc.2.1 rfl).trans (by decide),
    (hc.2.2.1 rfl).trans (by decide)⟩

/-! ### Claim C9 -/

/-- Claim C9: the geocoding provider is consulted for a topic exactly when
the topic has no coordinate, no geocode timestamp, or a timestamp older
than the TTL; a topic within the TTL is returned untouched without a
provider call, and a `none` provider result leaves the topic untouched
even when it was stale. -/
theorem C9_theorem (ttl now : ℤ) (t : TopicRow) (geo : Option GeocodeResult) :
    ((runGeocodeStep ttl now t geo).1 = true ↔
      t.geocoded_lat = none ∨ t.geocoded_lon = none ∨ t.geocode_updated_at = none ∨
        (∃ u, t.geocode_updated_at = some u ∧ u < now - ttl)) ∧
    (geocode_expired ttl now t = false → runGeocodeStep ttl now t geo = (false, t)) ∧
    (runGeocodeStep ttl now t none).2 = t := by
  refine ⟨?_, ?_, ?_⟩
  · have hexp : geocode_expired ttl now t = true ↔
        t.geocoded_lat = none ∨ t.geocoded_lon = none ∨ t.geocode_updated_at = none ∨
          (∃ u, t.geocode_updated_at = some u ∧ u < now - ttl) := by
      rcases hlat : t.geocoded_lat with _ | lat <;>
        rcases hlon : t.geocoded_lon with _ | lon <;>
        rcases hupd : t.geocode_updated_at with _ | u <;>
        simp [geocode_expired, hlat, hlon, hupd]
    by_cases hx : geocode_expired ttl now t = true
    · simpa [runGeocodeStep, hx] using hexp.mp hx
    · have hx' : geocode_expired ttl now t = false := by
        revert hx; cases geocode_expired ttl now t <;> simp
      simp only [runGeocodeStep, hx', Bool.false_eq_true, if_false]
      simpa [hx] using fun h => hx (hexp.mpr h)
  · intro h
    simp [runGeocodeStep, h]
  · by_cases hx : geocode_expired ttl now t = true <;> simp [runGeocodeStep, hx]

/-- Witness: a topic geocoded at instant 100 with TTL 50 is stale at
instant 200 (provider called) and fresh at instant 120 (untouched,
provider not called). -/
theorem C9_witness :
    (runGeocodeStep 50 200 geocodedTopicRow (some ⟨55, 37, 1, "yandex"⟩)).1 = true ∧
    runGeocodeStep 50 120 geocodedTopicRow (some ⟨55, 37, 1, "yandex"⟩) =
      (false, geocodedTopicRow) := by
  constructor
  · exact (C9_theorem 50 200 geocodedTopicRow (some ⟨55, 37, 1, "yandex"⟩)).1.mpr
      (Or.inr (Or.inr (Or.inr ⟨100, by decide, by decide⟩)))
  · exact (C9_theorem 50 120 geocodedTopicRow (some ⟨55, 37, 1, "yandex"⟩)).2.1 (by decide)

/-- When the entry `ensure_cookie` yields a non-empty cookie, the forced
refresh issued on an auth failure also yields a non-empty cookie: a failed
re-login falls back to the cached value or the fallback cookie, one of
which made the entry cookie non-empty. -/
theorem ensure_cookie_forced_ne (cfg : AuthConfig) (login : ℕ → String) (st₀ : AuthState)
    (h : (ensure_cookie cfg login st₀ false).1 ≠ "") :
    (ensure_cookie cfg login (ensure_cookie cfg login st₀ false).2 true).1 ≠ "" := by
  by_cases hc : hasCredentials cfg = true
  · by_cases h1 : st₀.cached = ""
    · by_cases h2 : login st₀.loginCalls = ""
      · have hfb : cfg.fallback_cookie ≠ "" := by
          simpa [ensure_cookie, hc, h1, h2] using h
        by_cases h3 : login (st₀.loginCalls + 1) = ""
        · simpa [ensure_cookie, hc, h1, h2, h3] using hfb
        · simp [ensure_cookie, hc, h1, h2, h3]
      · by_cases h3 : login (st₀.loginCalls + 1) = ""
        · simp [ensure_cookie, hc, h1, h2, h3]
        · simp [ensure_cookie, hc, h1, h2, h3]
    · by_cases h2 : login st₀.loginCalls = ""
      · simp [ensure_cookie, hc, h1, h2]
      · simp [ensure_cookie, hc, h1, h2]
  · have hc' : hasCredentials cfg = false := by
      revert hc; cases hasCredentials cfg <;> simp
    simpa [ensure_cookie, hc'] using h

/-! ### Claim C4 -/

/-- Claim C4: a download whose first response is 401/403 or redirected to a
login-shaped URL forces exactly one cookie refresh and retries the same
request exactly once (two requests in total); when the retry fails the
same way (or raises), the call returns `None` — no exception — and an
attachment first observed in that state is stored with a null local path. -/
theorem C4_theorem (cfg : AuthConfig) (login : ℕ → String) (resp : ℕ → Option HttpResp)
    (st₀ : AuthState) (r₀ : HttpResp)
    (hcookie : (ensure_cookie cfg login st₀ false).1 ≠ "")
    (h0 : resp 0 = some r₀) (hunauth : isUnauthorized r₀ = true) :
    (downloadAttachment cfg login resp st₀).1.forcedRefreshes = 1 ∧
    (downloadAttachment cfg login resp st₀).1.requests = 2 ∧
    (∀ r₁, resp 1 = some r₁ → isUnauthorized r₁ = true →
      (downloadAttachment cfg login resp st₀).1.result = none) ∧
    (resp 1 = none → (downloadAttachment cfg login resp st₀).1.result = none) ∧
    (∀ (db : Db) (pid : ℕ) (surl fn : String) (ii : Bool),
      findAttachment db.attachments pid surl = none →
      (upsert_post_attachment db pid surl fn ii none none none).2.local_rel_path = none) := by
  have hforce := ensure_cookie_forced_ne cfg login st₀ hcookie
  rcases he : ensure_cookie cfg login st₀ false with ⟨c₀, s₁⟩
  rw [he] at hcookie hforce
  rcases hf : ensure_cookie cfg login s₁ true with ⟨c₁, s₂⟩
  rw [hf] at hforce
  have hd : downloadAttachment cfg login resp st₀ =
      ({ result := downloadSecondAttempt (resp 1), forcedRefreshes := 1, requests := 2 },
       s₂) := by
    simp only [downloadAttachment, he, h0]
    rw [if_neg hcookie]
    simp only [hunauth, if_pos, hf]
    rw [if_neg hforce]
  rw [hd]
  refine ⟨rfl, rfl, ?_, ?_, ?_⟩
  · intro r₁ h1 hu1
    simp [downloadSecondAttempt, h1, hu1]
  · intro h1
    simp [downloadSecondAttempt, h1]
  · intro db pid surl fn ii hfind
    simp only [upsert_post_attachment, hfind]

/-- Witness: a fallback-cookie session whose attachment GET is answered 401
twice refreshes once, retries once and returns `None`. -/
theorem C4_witness :
    (downloadAttachment ⟨"", "", "ck"⟩ (fun _ => "")
        (fun _ => some ⟨401, "https://f/attachments/9/", none, 0⟩) ⟨"", 0⟩).1.forcedRefreshes
      = 1 ∧
    (downloadAttachment ⟨"", "", "ck"⟩ (fun _ => "")
        (fun _ => some ⟨401, "https://f/attachments/9/", none, 0⟩) ⟨"", 0⟩).1.requests = 2 ∧
    (downloadAttachment ⟨"", "", "ck"⟩ (fun _ => "")
        (fun _ => some ⟨401, "https://f/attachments/9/", none, 0⟩) ⟨"", 0⟩).1.result = none := by
  have hc := C4_theorem ⟨"", "", "ck"⟩ (fun _ => "")
    (fun _ => some ⟨401, "https://f/attachments/9/", none, 0⟩) ⟨"", 0⟩
    ⟨401, "https://f/attachments/9/", none, 0⟩ (by decide) rfl (by decide)
  exact ⟨hc.1, hc.2.1, hc.2.2.1 ⟨401, "https://f/attachments/9/", none, 0⟩ rfl (by decide)⟩

/-! #### Claim C1 -/

/-- Claim C1 is right about the intended design but the code breaks it:
constructing the `ForumScraper` already raises `TypeError` (unexpected
keyword `user_agent`), and even past construction every `run` invocation
raises `AttributeError` at `_ensure_forum_cookie` — before the Source row
step — so an error other than a Source-row failure aborts every run. -/
theorem C1_theorem :
    syncServiceBuildScraper = .error (.typeError "user_agent") ∧
    ensureForumCookieCall = .error (.attributeError "set_forum_session_cookie") ∧
    (∀ (sourceOk : Bool) (topicCount : ℕ),
      runFatalPrefix sourceOk topicCount =
        .error (.attributeError "set_forum_session_cookie")) := by
  refine ⟨rfl, rfl, ?_⟩
  intro sourceOk topicCount
  rfl

/-- Claim C2 fails on the code as literally stated: the second run inserts
no rows, but it does not leave every stored field value unchanged —
`Topic.last_seen_at` is refreshed to the second run's clock, so after two
runs at instants 0 and 1 the stored value is 1, not 0. -/
theorem C2_counterexample :
    secondRunC2.db.topics.map TopicRow.last_seen_at = [1] ∧
    firstRunC2.db.topics.map TopicRow.last_seen_at = [0] ∧
    secondRunC2.db ≠ firstRunC2.db ∧
    secondRunC2.db.topics.length = firstRunC2.db.topics.length ∧
    secondRunC2.db.posts = firstRunC2.db.posts ∧
    secondRunC2.db.attachments = firstRunC2.db.attachments := by
  refine ⟨?_, ?_, ?_, ?_, ?_, ?_⟩ <;> decide

/-! #### Decimal rendering facts and storage-path injectivity -/

theorem digitCh_isDigit {d : ℕ} (h : d < 10) : (digitCh d).isDigit = true := by
  interval_cases d <;> decide

theorem digitCh_val {d : ℕ} (h : d < 10) : (digitCh d).toNat - '0'.toNat = d := by
  interval_cases d <;> decide

theorem natDecimalAux_digits :
    ∀ (fuel n : ℕ), ∀ c ∈ natDecimalAux fuel n, c.isDigit = true
  | 0, _, c, hc => absurd hc (List.not_mem_nil c)
  | fuel + 1, n, c, hc => by
    by_cases h : n < 10
    · simp only [natDecimalAux, if_pos h, List.mem_singleton] at hc
      exact hc ▸ digitCh_isDigit h
    · simp only [natDecimalAux, if_neg h, List.mem_append, List.mem_singleton] at hc
      rcases hc with hc | hc
      · exact natDecimalAux_digits fuel (n / 10) c hc
      · exact hc ▸ digitCh_isDigit (Nat.mod_lt n (by omega))

theorem natDecimal_digits (n : ℕ) : ∀ c ∈ natDecimal n, c.isDigit = true :=
  natDecimalAux_digits (n + 1) n

theorem slash_not_mem_natDecimal (n : ℕ) : '/' ∉ natDecimal n := by
  intro h
  exact absurd (natDecimal_digits n '/' h) (by decide)

theorem underscore_not_mem_natDecimal (n : ℕ) : '_' ∉ natDecimal n := by
  intro h
  exact absurd (natDecimal_digits n '_' h) (by decide)

theorem valAux_natDecimalAux :
    ∀ (fuel n a : ℕ), n < fuel →
      valAux a (natDecimalAux fuel n) = a * 10 ^ (natDecimalAux fuel n).length + n
  | 0, _, _, h => by omega
  | fuel + 1, n, a, h => by
    by_cases h10 : n < 10
    · simp only [natDecimalAux, if_pos h10, valAux, List.foldl_cons, List.foldl_nil,
        List.length_singleton, pow_one, digitCh_val h10]
      omega
    · have hfuel : n / 10 < fuel := by omega
      have ih := valAux_natDecimalAux fuel (n / 10) a hfuel
      simp only [natDecimalAux, if_neg h10, valAux, List.foldl_append, List.foldl_cons,
        List.foldl_nil, List.length_append, List.length_singleton]
      simp only [valAux] at ih
      rw [ih, digitCh_val (Nat.mod_lt n (by omega))]
      ring_nf
      omega

theorem digitsToNat_natDecimal (n : ℕ) : digitsToNat (natDecimal n) = n := by
  have h := valAux_natDecimalAux (n + 1) n 0 (by omega)
  simpa [digitsToNat, valAux, natDecimal] using h

theorem natDecimal_inj {m n : ℕ} (h : natDecimal m = natDecimal n) : m = n := by
  have := congrArg digitsToNat h
  rwa [digitsToNat_natDecimal, digitsToNat_natDecimal] at this

theorem append_sep_inj (sep : Char) :
    ∀ (a₁ a₂ r₁ r₂ : List Char), sep ∉ a₁ → sep ∉ a₂ →
      a₁ ++ sep :: r₁ = a₂ ++ sep :: r₂ → a₁ = a₂ ∧ r₁ = r₂
  | [], [], _, _, _, _, h => ⟨rfl, by simpa using h⟩
  | [], c :: t, _, _, _, h₂, h => by
    simp only [List.nil_append, List.cons_append, List.cons.injEq] at h
    exact absurd (h.1 ▸ List.mem_cons_self c t) h₂
  | c :: t, [], _, _, h₁, _, h => by
    simp only [List.nil_append, List.cons_append, List.cons.injEq] at h
    exact absurd (h.1.symm ▸ List.mem_cons_self c t) h₁
  | c₁ :: t₁, c₂ :: t₂, r₁, r₂, h₁, h₂, h => by
    simp only [List.cons_append, List.cons.injEq] at h
    have ih := append_sep_inj sep t₁ t₂ r₁ r₂
      (fun hm => h₁ (List.mem_cons_of_mem c₁ hm))
      (fun hm => h₂ (List.mem_cons_of_mem c₂ hm)) h.2
    exact ⟨by rw [h.1, ih.1], ih.2⟩

theorem attachmentRelPath_data (pid idx : ℕ) (fn : String) :
    (attachmentRelPath pid idx fn).data =
      natDecimal pid ++ '/' :: (natDecimal idx ++ '_' :: (safe_file_name fn).data) := by
  simp [attachmentRelPath, String.data_append]

theorem attachmentRelPath_inj {pid idx pid' idx' : ℕ} {fn fn' : String}
    (h : attachmentRelPath pid idx fn = attachmentRelPath pid' idx' fn') :
    pid = pid' ∧ idx = idx' := by
  have hd := congrArg String.data h
  rw [attachmentRelPath_data, attachmentRelPath_data] at hd
  have h₁ := append_sep_inj '/' _ _ _ _ (slash_not_mem_natDecimal pid)
    (slash_not_mem_natDecimal pid') hd
  have h₂ := append_sep_inj '_' _ _ _ _ (underscore_not_mem_natDecimal idx)
    (underscore_not_mem_natDecimal idx') h₁.2
  exact ⟨natDecimal_inj h₁.1, natDecimal_inj h₂.1⟩

/-! #### More list lemmas -/

theorem find?_append_some {α : Type} (p : α → Bool) (l₁ l₂ : List α) (a : α)
    (h : l₁.find? p = some a) : (l₁ ++ l₂).find? p = some a := by
  induction l₁ with
  | nil => simp at h
  | cons x xs ih =>
    by_cases hx : p x = true
    · rw [List.find?_cons_of_pos _ hx] at h
      rw [List.cons_append, List.find?_cons_of_pos _ hx]
      exact h
    · rw [List.find?_cons_of_neg _ (by simp [hx])] at h
      rw [List.cons_append, List.find?_cons_of_neg _ (by simp [hx])]
      exact ih h

theorem find?_append_none {α : Type} (p : α → Bool) (l₁ l₂ : List α)
    (h : l₁.find? p = none) : (l₁ ++ l₂).find? p = l₂.find? p := by
  induction l₁ with
  | nil => rfl
  | cons x xs ih =>
    have hx : p x = false := by
      by_contra hc
      have hx' : p x = true := by revert hc; cases p x <;> simp
      rw [List.find?_cons_of_pos _ hx'] at h
      exact absurd h (by simp)
    rw [List.find?_cons_of_neg _ (by simp [hx])] at h
    rw [List.cons_append, List.find?_cons_of_neg _ (by simp [hx])]
    exact ih h

theorem mem_updateFirst {α : Type} (p : α → Bool) (f : α → α) :
    ∀ (l : List α), ∀ x ∈ updateFirst p f l, x ∈ l ∨ ∃ y ∈ l, x = f y
  | [], x, hx => absurd hx (List.not_mem_nil x)
  | a :: l, x, hx => by
    by_cases ha : p a = true
    · simp only [updateFirst, if_pos ha, List.mem_cons] at hx
      rcases hx with hx | hx
      · exact Or.inr ⟨a, List.mem_cons_self a l, hx⟩
      · exact Or.inl (List.mem_cons_of_mem a hx)
    · simp only [updateFirst, if_neg ha, List.mem_cons] at hx
      rcases hx with hx | hx
      · exact Or.inl (hx ▸ List.mem_cons_self a l)
      · rcases mem_updateFirst p f l x hx with h | ⟨y, hy, hxy⟩
        · exact Or.inl (List.mem_cons_of_mem a h)
        · exact Or.inr ⟨y, List.mem_cons_of_mem a hy, hxy⟩

theorem map_updateFirst {α β : Type} (p : α → Bool) (f : α → α) (g : α → β)
    (hg : ∀ x, g (f x) = g x) : ∀ (l : List α), (updateFirst p f l).map g = l.map g
  | [] => rfl
  | a :: l => by
    by_cases ha : p a = true
    · simp [updateFirst, ha, hg]
    · simp [updateFirst, ha, map_updateFirst p f g hg l]

theorem updateFirst_congr {α : Type} (p : α → Bool) (f g : α → α) :
    ∀ (l : List α) (a : α), l.find? p = some a → f a = g a →
      updateFirst p f l = updateFirst p g l
  | [], a, h, _ => by simp at h
  | x :: xs, a, h, hfg => by
    by_cases hx : p x = true
    · rw [List.find?_cons_of_pos _ hx] at h
      injection h with h'
      subst h'
      simp [updateFirst, hx, hfg]
    · rw [List.find?_cons_of_neg _ (by simp [hx])] at h
      simp [updateFirst, hx, updateFirst_congr p f g xs a h hfg]

/-! #### Structural facts about the upserts -/

theorem upsert_topic_proj (db : Db) (now : ℤ) (sid : ℕ) (eid t u pl : String) :
    (upsert_topic db now sid eid t u pl).1.posts = db.posts ∧
    (upsert_topic db now sid eid t u pl).1.attachments = db.attachments ∧
    (upsert_topic db now sid eid t u pl).1.nextPostId = db.nextPostId ∧
    (upsert_topic db now sid eid t u pl).1.nextAttachmentId = db.nextAttachmentId := by
  cases h : findTopic db.topics sid eid <;> simp [upsert_topic, h]

theorem upsert_post_proj (db : Db) (tid : ℕ) (eid a : String) (ts : ℤ) (c u : String) :
    (upsert_post db tid eid a ts c u).1.topics = db.topics ∧
    (upsert_post db tid eid a ts c u).1.attachments = db.attachments ∧
    (upsert_post db tid eid a ts c u).1.nextTopicId = db.nextTopicId ∧
    (upsert_post db tid eid a ts c u).1.nextAttachmentId = db.nextAttachmentId := by
  cases h : findPost db.posts tid eid <;> simp [upsert_post, h]

theorem upsert_post_attachment_proj (db : Db) (pid : ℕ) (surl fn : String) (ii : Bool)
    (lrp mt : Option String) (sb : Option ℕ) :
    (upsert_post_attachment db pid surl fn ii lrp mt sb).1.topics = db.topics ∧
    (upsert_post_attachment db pid surl fn ii lrp mt sb).1.posts = db.posts ∧
    (upsert_post_attachment db pid surl fn ii lrp mt sb).1.nextTopicId = db.nextTopicId ∧
    (upsert_post_attachment db pid surl fn ii lrp mt sb).1.nextPostId = db.nextPostId := by
  cases h : findAttachment db.attachments pid surl <;> simp [upsert_post_attachment, h]

theorem upsert_topic_find (db : Db) (now : ℤ) (sid : ℕ) (eid t u pl : String) :
    findTopic (upsert_topic db now sid eid t u pl).1.topics sid eid =
      some (upsert_topic db now sid eid t u pl).2 := by
  cases h : findTopic db.topics sid eid with
  | none =>
    have h' : db.topics.find? (topicKey sid eid) = none := h
    simp only [upsert_topic, findTopic, h']
    rw [find?_append_none _ _ _ h']
    simp [topicKey]
  | some a =>
    have h' : db.topics.find? (topicKey sid eid) = some a := h
    have hk : topicKey sid eid a = true := List.find?_some h'
    simp only [upsert_topic, findTopic, h']
    refine find?_updateFirst_self _ _ _ a h' ?_
    simpa [topicKey, topicRowRefresh] using hk

theorem upsert_post_find (db : Db) (tid : ℕ) (eid a : String) (ts : ℤ) (c u : String) :
    findPost (upsert_post db tid eid a ts c u).1.posts tid eid =
      some (upsert_post db tid eid a ts c u).2 := by
  cases h : findPost db.posts tid eid with
  | none =>
    have h' : db.posts.find? (postKey tid eid) = none := h
    simp only [upsert_post, findPost, h']
    rw [find?_append_none _ _ _ h']
    simp [postKey]
  | some p =>
    have h' : db.posts.find? (postKey tid eid) = some p := h
    have hk : postKey tid eid p = true := List.find?_some h'
    simp only [upsert_post, findPost, h']
    refine find?_updateFirst_self _ _ _ p h' ?_
    simpa [postKey, postRowRefresh] using hk

theorem upsert_post_attachment_find (db : Db) (pid : ℕ) (surl fn : String) (ii : Bool)
    (lrp mt : Option String) (sb : Option ℕ) :
    findAttachment (upsert_post_attachment db pid surl fn ii lrp mt sb).1.attachments
      pid surl = some (upsert_post_attachment db pid surl fn ii lrp mt sb).2 := by
  cases h : findAttachment db.attachments pid surl with
  | none =>
    have h' : db.attachments.find? (attachmentKey pid surl) = none := h
    simp only [upsert_post_attachment, findAttachment, h']
    rw [find?_append_none _ _ _ h']
    simp [attachmentKey]
  | some a =>
    have h' : db.attachments.find? (attachmentKey pid surl) = some a := h
    have hk : attachmentKey pid surl a = true := List.find?_some h'
    simp only [upsert_post_attachment, findAttachment, h']
    refine find?_updateFirst_self _ _ _ a h' ?_
    simpa [attachmentKey, attachmentRowUpdate] using hk

theorem emptyDb_wf : DbWF emptyDb :=
  ⟨List.Pairwise.nil, by simp [emptyDb], List.Pairwise.nil, by simp [emptyDb]⟩

theorem wf_upsert_topic (db : Db) (now : ℤ) (sid : ℕ) (eid t u pl : String)
    (hwf : DbWF db) : DbWF (upsert_topic db now sid eid t u pl).1 := by
  cases h : findTopic db.topics sid eid with
  | some a =>
    simp only [upsert_topic, h]
    refine ⟨?_, ?_, hwf.postIds, hwf.postIdLt⟩
    · have hm := map_updateFirst (topicKey sid eid)
        (topicRowRefresh t u pl now) TopicRow.id (fun x => rfl) db.topics
      dsimp only
      rw [hm]
      exact hwf.topicIds
    · intro x hx
      rcases mem_updateFirst _ _ _ x hx with hm | ⟨y, hy, rfl⟩
      · exact hwf.topicIdLt x hm
      · exact hwf.topicIdLt y hy
  | none =>
    simp only [upsert_topic, h]
    refine ⟨?_, ?_, hwf.postIds, hwf.postIdLt⟩
    · rw [List.map_append]
      refine List.pairwise_append.mpr ⟨hwf.topicIds, by simp, ?_⟩
      intro x hx y hy
      simp only [List.map_cons, List.map_nil, List.mem_singleton] at hy
      rcases List.mem_map.mp hx with ⟨r, hr, rfl⟩
      subst hy
      exact Nat.ne_of_lt (hwf.topicIdLt r hr)
    · intro x hx
      rcases List.mem_append.mp hx with hm | hm
      · exact Nat.lt_succ_of_lt (hwf.topicIdLt x hm)
      · simp only [List.mem_singleton] at hm
        subst hm
        exact Nat.lt_succ_self _

theorem wf_upsert_post (db : Db) (tid : ℕ) (eid a : String) (ts : ℤ) (c u : String)
    (hwf : DbWF db) : DbWF (upsert_post db tid eid a ts c u).1 := by
  cases h : findPost db.posts tid eid with
  | some p =>
    simp only [upsert_post, h]
    refine ⟨hwf.topicIds, hwf.topicIdLt, ?_, ?_⟩
    · have hm := map_updateFirst (postKey tid eid)
        (postRowRefresh a ts c u) PostRow.id (fun x => rfl) db.posts
      dsimp only
      rw [hm]
      exact hwf.postIds
    · intro x hx
      rcases mem_updateFirst _ _ _ x hx with hm | ⟨y, hy, rfl⟩
      · exact hwf.postIdLt x hm
      · exact hwf.postIdLt y hy
  | none =>
    simp only [upsert_post, h]
    refine ⟨hwf.topicIds, hwf.topicIdLt, ?_, ?_⟩
    · rw [List.map_append]
      refine List.pairwise_append.mpr ⟨hwf.postIds, by simp, ?_⟩
      intro x hx y hy
      simp only [List.map_cons, List.map_nil, List.mem_singleton] at hy
      rcases List.mem_map.mp hx with ⟨r, hr, rfl⟩
      subst hy
      exact Nat.ne_of_lt (hwf.postIdLt r hr)
    · intro x hx
      rcases List.mem_append.mp hx with hm | hm
      · exact Nat.lt_succ_of_lt (hwf.postIdLt x hm)
      · simp only [List.mem_singleton] at hm
        subst hm
        exact Nat.lt_succ_self _

theorem wf_upsert_post_attachment (db : Db) (pid : ℕ) (surl fn : String) (ii : Bool)
    (lrp mt : Option String) (sb : Option ℕ) (hwf : DbWF db) :
    DbWF (upsert_post_attachment db pid surl fn ii lrp mt sb).1 := by
  have hp := upsert_post_attachment_proj db pid surl fn ii lrp mt sb
  exact ⟨hp.1 ▸ hwf.topicIds, fun x hx => hp.2.2.1 ▸ hwf.topicIdLt x (hp.1 ▸ hx),
    hp.2.1 ▸ hwf.postIds, fun x hx => hp.2.2.2 ▸ hwf.postIdLt x (hp.2.1 ▸ hx)⟩

theorem contains_eq_true_of_mem {α : Type} [BEq α] [LawfulBEq α] {l : List α} {s : α}
    (h : s ∈ l) : l.contains s = true :=
  List.elem_iff.mpr h

theorem contains_eq_false_of_not_mem {α : Type} [BEq α] [LawfulBEq α] {l : List α} {s : α}
    (h : s ∉ l) : l.contains s = false := by
  by_contra hc
  have : l.contains s = true := by revert hc; cases l.contains s <;> simp
  exact h (List.elem_iff.mp this)

/-! #### The attachment step, case by case -/

theorem processAttachment_eq_exists (env : SyncEnv) (pid : ℕ) (st : SyncState)
    (idx : ℕ) (att : ScrapedAttachment)
    (h : attachmentRelPath pid idx att.file_name ∈ st.files) :
    processAttachment env pid st (idx, att) =
      ⟨(upsert_post_attachment st.db pid att.source_url att.file_name att.is_image
          (some (attachmentRelPath pid idx att.file_name)) none none).1, st.files⟩ := by
  simp [processAttachment, h]

theorem processAttachment_eq_download (env : SyncEnv) (pid : ℕ) (st : SyncState)
    (idx : ℕ) (att : ScrapedAttachment) (m : Option String) (s : ℕ)
    (h : attachmentRelPath pid idx att.file_name ∉ st.files)
    (hd : env.download_attachments = true)
    (ho : env.download att.source_url = some (m, s)) :
    processAttachment env pid st (idx, att) =
      ⟨(upsert_post_attachment st.db pid att.source_url att.file_name att.is_image
          (some (attachmentRelPath pid idx att.file_name)) m (some s)).1,
        attachmentRelPath pid idx att.file_name :: st.files⟩ := by
  simp [processAttachment, h, hd, ho]

theorem processAttachment_eq_skip (env : SyncEnv) (pid : ℕ) (st : SyncState)
    (idx : ℕ) (att : ScrapedAttachment)
    (h : attachmentRelPath pid idx att.file_name ∉ st.files)
    (hcase : env.download_attachments = false ∨ env.download att.source_url = none) :
    processAttachment env pid st (idx, att) =
      ⟨(upsert_post_attachment st.db pid att.source_url att.file_name att.is_image
          none none none).1, st.files⟩ := by
  rcases hcase with hd | ho
  · simp [processAttachment, h, hd]
  · cases hd : env.download_attachments <;> simp [processAttachment, h, hd, ho]

theorem processAttachment_files (env : SyncEnv) (pid : ℕ) (st : SyncState)
    (ia : ℕ × ScrapedAttachment) :
    (processAttachment env pid st ia).files = st.files ∨
    ((processAttachment env pid st ia).files =
        attachmentRelPath pid ia.1 ia.2.file_name :: st.files ∧
      attachmentRelPath pid ia.1 ia.2.file_name ∉ st.files) := by
  rcases ia with ⟨idx, att⟩
  by_cases h : attachmentRelPath pid idx att.file_name ∈ st.files
  · rw [processAttachment_eq_exists env pid st idx att h]
    exact Or.inl rfl
  · cases hd : env.download_attachments with
    | false => rw [processAttachment_eq_skip env pid st idx att h (Or.inl hd)]; exact Or.inl rfl
    | true =>
      cases ho : env.download att.source_url with
      | none => rw [processAttachment_eq_skip env pid st idx att h (Or.inr ho)]; exact Or.inl rfl
      | some ms =>
        rw [processAttachment_eq_download env pid st idx att ms.1 ms.2 h hd (by simpa using ho)]
        exact Or.inr ⟨rfl, h⟩

theorem files_subset_processAttachment (env : SyncEnv) (pid : ℕ) (st : SyncState)
    (ia : ℕ × ScrapedAttachment) : st.files ⊆ (processAttachment env pid st ia).files := by
  rcases processAttachment_files env pid st ia with h | ⟨h, _⟩
  · rw [h]; exact fun x hx => hx
  · rw [h]; exact fun x hx => List.mem_cons_of_mem _ hx

theorem processAttachment_db (env : SyncEnv) (pid : ℕ) (st : SyncState)
    (ia : ℕ × ScrapedAttachment) :
    ∃ lrp mt sb, (processAttachment env pid st ia).db =
      (upsert_post_attachment st.db pid ia.2.source_url ia.2.file_name ia.2.is_image
        lrp mt sb).1 :=
  ⟨_, _, _, rfl⟩

theorem wf_processAttachment (env : SyncEnv) (pid : ℕ) (st : SyncState)
    (ia : ℕ × ScrapedAttachment) (hwf : DbWF st.db) :
    DbWF (processAttachment env pid st ia).db := by
  rcases processAttachment_db env pid st ia with ⟨lrp, mt, sb, hdb⟩
  rw [hdb]
  exact wf_upsert_post_attachment _ _ _ _ _ _ _ _ hwf

/-! #### Frame lemmas: an upsert under one key leaves other keys alone -/

theorem upsert_post_attachment_find_disjoint (db : Db) (pid' : ℕ) (surl' fn : String)
    (ii : Bool) (lrp mt : Option String) (sb : Option ℕ) (pid : ℕ) (surl : String)
    (hne : pid ≠ pid' ∨ surl ≠ surl') :
    findAttachment (upsert_post_attachment db pid' surl' fn ii lrp mt sb).1.attachments
      pid surl = findAttachment db.attachments pid surl := by
  have hdisj : ∀ x : AttachmentRow, attachmentKey pid' surl' x = true →
      attachmentKey pid surl x = false := by
    intro x hx
    simp only [attachmentKey, Bool.and_eq_true, beq_iff_eq] at hx
    simp only [attachmentKey, Bool.and_eq_false_iff, beq_eq_false_iff_ne, ne_eq]
    rcases hne with hne | hne
    · exact Or.inl fun hh => hne ((hx.1.symm.trans hh).symm)
    · exact Or.inr fun hh => hne ((hx.2.symm.trans hh).symm)
  cases h : findAttachment db.attachments pid' surl' with
  | some a =>
    have h' : db.attachments.find? (attachmentKey pid' surl') = some a := h
    simp only [upsert_post_attachment, findAttachment, h']
    refine find?_updateFirst_disjoint _ _ _ _ hdisj ?_
    intro x hx
    simpa [attachmentKey, attachmentRowUpdate] using hdisj x hx
  | none =>
    have h' : db.attachments.find? (attachmentKey pid' surl') = none := h
    simp only [upsert_post_attachment, findAttachment, h']
    cases hl : db.attachments.find? (attachmentKey pid surl) with
    | some a => exact find?_append_some _ _ _ a hl
    | none =>
      rw [find?_append_none _ _ _ hl]
      rcases hne with hne | hne
      · have hb : (pid' == pid) = false := beq_eq_false_iff_ne.mpr (Ne.symm hne)
        simp [List.find?, attachmentKey, hb]
      · have hb : (surl' == surl) = false := beq_eq_false_iff_ne.mpr (Ne.symm hne)
        simp [List.find?, attachmentKey, hb]

theorem upsert_post_find_disjoint (db : Db) (tid' : ℕ) (eid' a : String) (ts : ℤ)
    (c u : String) (tid : ℕ) (eid : String) (hne : tid ≠ tid' ∨ eid ≠ eid') :
    findPost (upsert_post db tid' eid' a ts c u).1.posts tid eid =
      findPost db.posts tid eid := by
  have hdisj : ∀ x : PostRow, postKey tid' eid' x = true → postKey tid eid x = false := by
    intro x hx
    simp only [postKey, Bool.and_eq_true, beq_iff_eq] at hx
    simp only [postKey, Bool.and_eq_false_iff, beq_eq_false_iff_ne, ne_eq]
    rcases hne with hne | hne
    · exact Or.inl fun hh => hne ((hx.1.symm.trans hh).symm)
    · exact Or.inr fun hh => hne ((hx.2.symm.trans hh).symm)
  cases h : findPost db.posts tid' eid' with
  | some p =>
    have h' : db.posts.find? (postKey tid' eid') = some p := h
    simp only [upsert_post, findPost, h']
    refine find?_updateFirst_disjoint _ _ _ _ hdisj ?_
    intro x hx
    simpa [postKey, postRowRefresh] using hdisj x hx
  | none =>
    have h' : db.posts.find? (postKey tid' eid') = none := h
    simp only [upsert_post, findPost, h']
    cases hl : db.posts.find? (postKey tid eid) with
    | some p => exact find?_append_some _ _ _ p hl
    | none =>
      rw [find?_append_none _ _ _ hl]
      rcases hne with hne | hne
      · have hb : (tid' == tid) = false := beq_eq_false_iff_ne.mpr (Ne.symm hne)
        simp [List.find?, postKey, hb]
      · have hb : (eid' == eid) = false := beq_eq_false_iff_ne.mpr (Ne.symm hne)
        simp [List.find?, postKey, hb]

theorem upsert_topic_find_disjoint (db : Db) (now : ℤ) (sid' : ℕ) (eid' t u pl : String)
    (sid : ℕ) (eid : String) (hne : sid ≠ sid' ∨ eid ≠ eid') :
    findTopic (upsert_topic db now sid' eid' t u pl).1.topics sid eid =
      findTopic db.topics sid eid := by
  have hdisj : ∀ x : TopicRow, topicKey sid' eid' x = true → topicKey sid eid x = false := by
    intro x hx
    simp only [topicKey, Bool.and_eq_true, beq_iff_eq] at hx
    simp only [topicKey, Bool.and_eq_false_iff, beq_eq_false_iff_ne, ne_eq]
    rcases hne with hne | hne
    · exact Or.inl fun hh => hne ((hx.1.symm.trans hh).symm)
    · exact Or.inr fun hh => hne ((hx.2.symm.trans hh).symm)
  cases h : findTopic db.topics sid' eid' with
  | some a =>
    have h' : db.topics.find? (topicKey sid' eid') = some a := h
    simp only [upsert_topic, findTopic, h']
    refine find?_updateFirst_disjoint _ _ _ _ hdisj ?_
    intro x hx
    simpa [topicKey, topicRowRefresh] using hdisj x hx
  | none =>
    have h' : db.topics.find? (topicKey sid' eid') = none := h
    simp only [upsert_topic, findTopic, h']
    cases hl : db.topics.find? (topicKey sid eid) with
    | some a => exact find?_append_some _ _ _ a hl
    | none =>
      rw [find?_append_none _ _ _ hl]
      rcases hne with hne | hne
      · have hb : (sid' == sid) = false := beq_eq_false_iff_ne.mpr (Ne.symm hne)
        simp [List.find?, topicKey, hb]
      · have hb : (eid' == eid) = false := beq_eq_false_iff_ne.mpr (Ne.symm hne)
        simp [List.find?, topicKey, hb]

/-! #### The attachment step establishes, preserves and fixes reflection -/

theorem upsert_post_attachment_fields (db : Db) (pid : ℕ) (surl fn : String) (ii : Bool)
    (lrp mt : Option String) (sb : Option ℕ) :
    (upsert_post_attachment db pid surl fn ii lrp mt sb).2.file_name = fn ∧
    (upsert_post_attachment db pid surl fn ii lrp mt sb).2.is_image = ii ∧
    (∀ v, lrp = some v →
      (upsert_post_attachment db pid surl fn ii lrp mt sb).2.local_rel_path = some v) := by
  refine ⟨?_, ?_, ?_⟩
  · cases h : findAttachment db.attachments pid surl <;>
      simp [upsert_post_attachment, h, attachmentRowUpdate]
  · cases h : findAttachment db.attachments pid surl <;>
      simp [upsert_post_attachment, h, attachmentRowUpdate]
  · rintro v rfl
    cases h : findAttachment db.attachments pid surl <;>
      simp [upsert_post_attachment, h, attachmentRowUpdate]

theorem upsert_post_attachment_eq_self (db : Db) (pid : ℕ) (surl fn : String)
    (ii : Bool) (lrp : Option String) (a : AttachmentRow)
    (h : findAttachment db.attachments pid surl = some a)
    (hfn : a.file_name = fn) (hii : a.is_image = ii)
    (hl : ∀ v, lrp = some v → a.local_rel_path = some v) :
    (upsert_post_attachment db pid surl fn ii lrp none none).1 = db := by
  have hfix : attachmentRowUpdate fn ii lrp none none a = a := by
    obtain ⟨aid, apid, asurl, afn, amt, asb, alrp, aii⟩ := a
    cases lrp with
    | none => simp_all [attachmentRowUpdate]
    | some v =>
      have := hl v rfl
      simp_all [attachmentRowUpdate]
  simp only [upsert_post_attachment, h]
  rw [updateFirst_eq_self _ _ _ a h hfix]

theorem processAttachment_establishes (env : SyncEnv) (pid : ℕ) (st : SyncState)
    (idx : ℕ) (att : ScrapedAttachment) :
    attachmentReflected env (processAttachment env pid st (idx, att)).db.attachments
      (processAttachment env pid st (idx, att)).files pid idx att := by
  by_cases hmem : attachmentRelPath pid idx att.file_name ∈ st.files
  · rw [processAttachment_eq_exists env pid st idx att hmem]
    have hf := upsert_post_attachment_fields st.db pid att.source_url att.file_name
      att.is_image (some (attachmentRelPath pid idx att.file_name)) none none
    exact ⟨_, upsert_post_attachment_find _ _ _ _ _ _ _ _, hf.1, hf.2.1,
      fun _ => hf.2.2 _ rfl, fun _ _ => hmem⟩
  · cases hd : env.download_attachments with
    | true =>
      cases ho : env.download att.source_url with
      | some ms =>
        rw [processAttachment_eq_download env pid st idx att ms.1 ms.2 hmem hd
          (by simpa using ho)]
        have hf := upsert_post_attachment_fields st.db pid att.source_url att.file_name
          att.is_image (some (attachmentRelPath pid idx att.file_name)) ms.1 (some ms.2)
        exact ⟨_, upsert_post_attachment_find _ _ _ _ _ _ _ _, hf.1, hf.2.1,
          fun _ => hf.2.2 _ rfl, fun _ _ => List.mem_cons_self _ _⟩
      | none =>
        rw [processAttachment_eq_skip env pid st idx att hmem (Or.inr ho)]
        have hf := upsert_post_attachment_fields st.db pid att.source_url att.file_name
          att.is_image none none none
        refine ⟨_, upsert_post_attachment_find _ _ _ _ _ _ _ _, hf.1, hf.2.1, ?_, ?_⟩
        · intro hmem'; exact absurd hmem' hmem
        · intro _ hdl; exact absurd ho hdl
    | false =>
      rw [processAttachment_eq_skip env pid st idx att hmem (Or.inl hd)]
      have hf := upsert_post_attachment_fields st.db pid att.source_url att.file_name
        att.is_image none none none
      refine ⟨_, upsert_post_attachment_find _ _ _ _ _ _ _ _, hf.1, hf.2.1, ?_, ?_⟩
      · intro hmem'; exact absurd hmem' hmem
      · intro hdl _; rw [hd] at hdl; exact absurd hdl (by simp)

theorem processAttachment_preserves (env : SyncEnv) (pid' : ℕ) (st : SyncState)
    (ia : ℕ × ScrapedAttachment) (pid idx : ℕ) (att : ScrapedAttachment)
    (hkey : pid' ≠ pid ∨ (ia.2.source_url ≠ att.source_url ∧ ia.1 ≠ idx))
    (href : attachmentReflected env st.db.attachments st.files pid idx att) :
    attachmentReflected env (processAttachment env pid' st ia).db.attachments
      (processAttachment env pid' st ia).files pid idx att := by
  obtain ⟨arow, hfind, hfn, hii, hlocal, hsat⟩ := href
  have hkeyne : pid ≠ pid' ∨ att.source_url ≠ ia.2.source_url := by
    rcases hkey with h | ⟨h, _⟩
    · exact Or.inl (Ne.symm h)
    · exact Or.inr (Ne.symm h)
  have hrelne : attachmentRelPath pid' ia.1 ia.2.file_name ≠
      attachmentRelPath pid idx att.file_name := by
    intro heq
    rcases attachmentRelPath_inj heq with ⟨h1, h2⟩
    rcases hkey with h | ⟨_, h⟩
    · exact h h1
    · exact h h2
  rcases processAttachment_db env pid' st ia with ⟨lrp, mt, sb, hdb⟩
  have hfind' : findAttachment (processAttachment env pid' st ia).db.attachments
      pid att.source_url = some arow := by
    rw [hdb, upsert_post_attachment_find_disjoint st.db pid' ia.2.source_url
      ia.2.file_name ia.2.is_image lrp mt sb pid att.source_url hkeyne]
    exact hfind
  refine ⟨arow, hfind', hfn, hii, ?_, ?_⟩
  · intro hmem
    rcases processAttachment_files env pid' st ia with hf | ⟨hf, _⟩
    · exact hlocal (hf ▸ hmem)
    · rw [hf] at hmem
      rcases List.mem_cons.mp hmem with h | h
      · exact absurd h.symm hrelne
      · exact hlocal h
  · intro h1 h2
    exact files_subset_processAttachment env pid' st ia (hsat h1 h2)

theorem processAttachment_fix (env : SyncEnv) (pid : ℕ) (st : SyncState)
    (idx : ℕ) (att : ScrapedAttachment)
    (href : attachmentReflected env st.db.attachments st.files pid idx att) :
    processAttachment env pid st (idx, att) = st := by
  obtain ⟨arow, hfind, hfn, hii, hlocal, hsat⟩ := href
  by_cases hmem : attachmentRelPath pid idx att.file_name ∈ st.files
  · rw [processAttachment_eq_exists env pid st idx att hmem]
    have hdb := upsert_post_attachment_eq_self st.db pid att.source_url att.file_name
      att.is_image (some (attachmentRelPath pid idx att.file_name)) arow hfind hfn hii
      (fun v hv => by
        injection hv with hv
        rw [← hv]
        exact hlocal hmem)
    rw [hdb]
  · have hskip : env.download_attachments = false ∨ env.download att.source_url = none := by
      by_contra hc
      push_neg at hc
      have hd : env.download_attachments = true := by
        revert hc; cases env.download_attachments <;> simp
      exact hmem (hsat hd (by
        intro hnone
        exact hc.2 hnone))
    rw [processAttachment_eq_skip env pid st idx att hmem hskip]
    have hdb := upsert_post_attachment_eq_self st.db pid att.source_url att.file_name
      att.is_image none arow hfind hfn hii (fun v hv => by cases hv)
    rw [hdb]

/-! #### The attachment fold of one post -/

theorem foldA_other (env : SyncEnv) (pid : ℕ) :
    ∀ (l : List (ℕ × ScrapedAttachment)) (st : SyncState),
      (l.foldl (processAttachment env pid) st).db.topics = st.db.topics ∧
      (l.foldl (processAttachment env pid) st).db.posts = st.db.posts ∧
      (l.foldl (processAttachment env pid) st).db.nextTopicId = st.db.nextTopicId ∧
      (l.foldl (processAttachment env pid) st).db.nextPostId = st.db.nextPostId
  | [], st => ⟨rfl, rfl, rfl, rfl⟩
  | x :: rest, st => by
    rcases processAttachment_db env pid st x with ⟨lrp, mt, sb, hdb⟩
    have hproj := upsert_post_attachment_proj st.db pid x.2.source_url x.2.file_name
      x.2.is_image lrp mt sb
    have ih := foldA_other env pid rest (processAttachment env pid st x)
    rw [List.foldl_cons]
    exact ⟨ih.1.trans (hdb ▸ hproj.1), ih.2.1.trans (hdb ▸ hproj.2.1),
      ih.2.2.1.trans (hdb ▸ hproj.2.2.1), ih.2.2.2.trans (hdb ▸ hproj.2.2.2)⟩

theorem foldA_wf (env : SyncEnv) (pid : ℕ) :
    ∀ (l : List (ℕ × ScrapedAttachment)) (st : SyncState), DbWF st.db →
      DbWF (l.foldl (processAttachment env pid) st).db
  | [], _, hwf => hwf
  | x :: rest, st, hwf => by
    rw [List.foldl_cons]
    exact foldA_wf env pid rest _ (wf_processAttachment env pid st x hwf)

theorem foldA_files_subset (env : SyncEnv) (pid : ℕ) :
    ∀ (l : List (ℕ × ScrapedAttachment)) (st : SyncState),
      st.files ⊆ (l.foldl (processAttachment env pid) st).files
  | [], _ => fun _ hx => hx
  | x :: rest, st => by
    rw [List.foldl_cons]
    exact fun y hy => foldA_files_subset env pid rest _
      (files_subset_processAttachment env pid st x hy)

theorem foldA_preserve (env : SyncEnv) (pid' : ℕ) :
    ∀ (l : List (ℕ × ScrapedAttachment)) (st : SyncState) (pid idx : ℕ)
      (att : ScrapedAttachment),
      (∀ ia ∈ l, pid' ≠ pid ∨ (ia.2.source_url ≠ att.source_url ∧ ia.1 ≠ idx)) →
      attachmentReflected env st.db.attachments st.files pid idx att →
      attachmentReflected env (l.foldl (processAttachment env pid') st).db.attachments
        (l.foldl (processAttachment env pid') st).files pid idx att
  | [], _, _, _, _, _, href => href
  | x :: rest, st, pid, idx, att, hkey, href => by
    rw [List.foldl_cons]
    refine foldA_preserve env pid' rest _ pid idx att
      (fun ia hia => hkey ia (List.mem_cons_of_mem x hia)) ?_
    exact processAttachment_preserves env pid' st x pid idx att
      (hkey x (List.mem_cons_self x rest)) href

theorem foldA_establish (env : SyncEnv) (pid : ℕ) :
    ∀ (l : List (ℕ × ScrapedAttachment)) (st : SyncState),
      l.Pairwise (fun a b => a.1 ≠ b.1) →
      l.Pairwise (fun a b => a.2.source_url ≠ b.2.source_url) →
      ∀ ia ∈ l, attachmentReflected env
        (l.foldl (processAttachment env pid) st).db.attachments
        (l.foldl (processAttachment env pid) st).files pid ia.1 ia.2
  | [], _, _, _, ia, hia => absurd hia (List.not_mem_nil ia)
  | x :: rest, st, hidx, hurl, ia, hia => by
    rw [List.foldl_cons]
    rcases List.mem_cons.mp hia with rfl | hia'
    · refine foldA_preserve env pid rest _ pid ia.1 ia.2 ?_ ?_
      · intro ib hib
        exact Or.inr ⟨Ne.symm ((List.pairwise_cons.mp hurl).1 ib hib),
          Ne.symm ((List.pairwise_cons.mp hidx).1 ib hib)⟩
      · have h := processAttachment_establishes env pid st ia.1 ia.2
        exact h
    · exact foldA_establish env pid rest _ (List.pairwise_cons.mp hidx).2
        (List.pairwise_cons.mp hurl).2 ia hia'

theorem foldA_fix (env : SyncEnv) (pid : ℕ) :
    ∀ (l : List (ℕ × ScrapedAttachment)) (st : SyncState),
      (∀ ia ∈ l, attachmentReflected env st.db.attachments st.files pid ia.1 ia.2) →
      l.foldl (processAttachment env pid) st = st
  | [], _, _ => rfl
  | x :: rest, st, hall => by
    rw [List.foldl_cons]
    have hx : processAttachment env pid st x = st :=
      processAttachment_fix env pid st x.1 x.2 (hall x (List.mem_cons_self x rest))
    rw [hx]
    exact foldA_fix env pid rest st fun ia hia => hall ia (List.mem_cons_of_mem x hia)

/-! #### Distinct members have distinct ids -/

theorem pairwise_map_ne {α β : Type} {f : α → β} :
    ∀ {l : List α}, (l.map f).Pairwise (· ≠ ·) →
      ∀ {x y : α}, x ∈ l → y ∈ l → x ≠ y → f x ≠ f y
  | [], _, x, _, hx, _, _ => absurd hx (List.not_mem_nil x)
  | a :: t, h, x, y, hx, hy, hxy => by
    rw [List.map_cons, List.pairwise_cons] at h
    rcases List.mem_cons.mp hx with rfl | hx'
    · rcases List.mem_cons.mp hy with rfl | hy'
      · exact absurd rfl hxy
      · exact h.1 (f y) (List.mem_map_of_mem f hy')
    · rcases List.mem_cons.mp hy with rfl | hy'
      · exact fun he => h.1 (f x) (List.mem_map_of_mem f hx') he.symm
      · exact pairwise_map_ne h.2 hx' hy' hxy

theorem upsert_post_id_ne (db : Db) (tid' : ℕ) (eid' a : String) (ts : ℤ) (c u : String)
    (hwf : DbWF db) (prow : PostRow) (hmem : prow ∈ db.posts)
    (hkeyne : prow.topic_id ≠ tid' ∨ prow.external_id ≠ eid') :
    (upsert_post db tid' eid' a ts c u).2.id ≠ prow.id := by
  cases h : findPost db.posts tid' eid' with
  | some q =>
    have hqmem : q ∈ db.posts := List.mem_of_find?_eq_some h
    have hkq : postKey tid' eid' q = true := List.find?_some h
    have hqne : q ≠ prow := by
      rintro rfl
      simp only [postKey, Bool.and_eq_true, beq_iff_eq] at hkq
      rcases hkeyne with hne | hne
      · exact hne hkq.1
      · exact hne hkq.2
    have hid : q.id ≠ prow.id := pairwise_map_ne hwf.postIds hqmem hmem hqne
    simpa [upsert_post, h, postRowRefresh] using hid
  | none =>
    have hlt := hwf.postIdLt prow hmem
    simp only [upsert_post, h]
    exact fun he => absurd he.symm (Nat.ne_of_lt hlt)

theorem upsert_topic_id_ne (db : Db) (now : ℤ) (sid' : ℕ) (eid' t u pl : String)
    (hwf : DbWF db) (trow : TopicRow) (hmem : trow ∈ db.topics)
    (hkeyne : trow.source_id ≠ sid' ∨ trow.external_id ≠ eid') :
    (upsert_topic db now sid' eid' t u pl).2.id ≠ trow.id := by
  cases h : findTopic db.topics sid' eid' with
  | some q =>
    have hqmem : q ∈ db.topics := List.mem_of_find?_eq_some h
    have hkq : topicKey sid' eid' q = true := List.find?_some h
    have hqne : q ≠ trow := by
      rintro rfl
      simp only [topicKey, Bool.and_eq_true, beq_iff_eq] at hkq
      rcases hkeyne with hne | hne
      · exact hne hkq.1
      · exact hne hkq.2
    have hid : q.id ≠ trow.id := pairwise_map_ne hwf.topicIds hqmem hmem hqne
    simpa [upsert_topic, h, topicRowRefresh] using hid
  | none =>
    have hlt := hwf.topicIdLt trow hmem
    simp only [upsert_topic, h]
    exact fun he => absurd he.symm (Nat.ne_of_lt hlt)

/-! #### The post step -/

theorem upsert_post_fields (db : Db) (tid : ℕ) (eid a : String) (ts : ℤ) (c u : String) :
    (upsert_post db tid eid a ts c u).2.author = a ∧
    (upsert_post db tid eid a ts c u).2.posted_at_utc = ts ∧
    (upsert_post db tid eid a ts c u).2.content_text = c ∧
    (upsert_post db tid eid a ts c u).2.url = u := by
  cases h : findPost db.posts tid eid <;> simp [upsert_post, h, postRowRefresh]

theorem processPost_establishes (env : SyncEnv) (tid : ℕ) (st : SyncState)
    (p : ScrapedPost)
    (hurl : p.attachments.Pairwise (fun a b => a.source_url ≠ b.source_url)) :
    postReflected env (processPost env tid st p).db.posts
      (processPost env tid st p).db.attachments (processPost env tid st p).files tid p := by
  have henum_idx : p.attachments.enum.Pairwise (fun a b => a.1 ≠ b.1) := by
    have h := List.nodup_range p.attachments.length
    rw [← List.enum_map_fst p.attachments] at h
    exact List.pairwise_map.mp h
  have henum_url : p.attachments.enum.Pairwise
      (fun a b => a.2.source_url ≠ b.2.source_url) := by
    have h : (p.attachments.enum.map Prod.snd).Pairwise
        (fun a b => a.source_url ≠ b.source_url) := by
      rw [List.enum_map_snd]
      exact hurl
    have h2 := List.pairwise_map.mp h
    exact h2
  have hfields := upsert_post_fields st.db tid p.external_id p.author p.posted_at_utc
    p.content_text p.url
  have hother := foldA_other env
    (upsert_post st.db tid p.external_id p.author p.posted_at_utc p.content_text p.url).2.id
    p.attachments.enum
    ⟨(upsert_post st.db tid p.external_id p.author p.posted_at_utc p.content_text p.url).1,
      st.files⟩
  refine ⟨(upsert_post st.db tid p.external_id p.author p.posted_at_utc p.content_text
      p.url).2, ?_, hfields.1, hfields.2.1, hfields.2.2.1, hfields.2.2.2, ?_⟩
  · show findPost (processPost env tid st p).db.posts tid p.external_id = _
    have : (processPost env tid st p).db.posts =
        (upsert_post st.db tid p.external_id p.author p.posted_at_utc p.content_text
          p.url).1.posts := hother.2.1
    rw [this]
    exact upsert_post_find _ _ _ _ _ _ _
  · intro ia hia
    exact foldA_establish env _ p.attachments.enum _ henum_idx henum_url ia hia

theorem processPost_other (env : SyncEnv) (tid : ℕ) (st : SyncState) (p : ScrapedPost) :
    (processPost env tid st p).db.topics = st.db.topics ∧
    (processPost env tid st p).db.nextTopicId = st.db.nextTopicId := by
  have h1 := foldA_other env
    (upsert_post st.db tid p.external_id p.author p.posted_at_utc p.content_text p.url).2.id
    p.attachments.enum
    ⟨(upsert_post st.db tid p.external_id p.author p.posted_at_utc p.content_text p.url).1,
      st.files⟩
  have h2 := upsert_post_proj st.db tid p.external_id p.author p.posted_at_utc
    p.content_text p.url
  exact ⟨h1.1.trans h2.1, h1.2.2.1.trans h2.2.2.1⟩

theorem wf_processPost (env : SyncEnv) (tid : ℕ) (st : SyncState) (p : ScrapedPost)
    (hwf : DbWF st.db) : DbWF (processPost env tid st p).db :=
  foldA_wf env _ p.attachments.enum _
    (wf_upsert_post st.db tid p.external_id p.author p.posted_at_utc p.content_text
      p.url hwf)

theorem files_subset_processPost (env : SyncEnv) (tid : ℕ) (st : SyncState)
    (p : ScrapedPost) : st.files ⊆ (processPost env tid st p).files :=
  foldA_files_subset env
    (upsert_post st.db tid p.external_id p.author p.posted_at_utc p.content_text p.url).2.id
    p.attachments.enum
    ⟨(upsert_post st.db tid p.external_id p.author p.posted_at_utc p.content_text p.url).1,
      st.files⟩

theorem processPost_preserves (env : SyncEnv) (tid' : ℕ) (st : SyncState) (p' : ScrapedPost)
    (tid : ℕ) (p : ScrapedPost) (hwf : DbWF st.db)
    (hkeyne : tid ≠ tid' ∨ p.external_id ≠ p'.external_id)
    (href : postReflected env st.db.posts st.db.attachments st.files tid p) :
    postReflected env (processPost env tid' st p').db.posts
      (processPost env tid' st p').db.attachments (processPost env tid' st p').files
      tid p := by
  obtain ⟨prow, hfind, h1, h2, h3, h4, hatts⟩ := href
  have hmem : prow ∈ st.db.posts := List.mem_of_find?_eq_some hfind
  have hkp : postKey tid p.external_id prow = true := List.find?_some hfind
  simp only [postKey, Bool.and_eq_true, beq_iff_eq] at hkp
  have hkeyne' : prow.topic_id ≠ tid' ∨ prow.external_id ≠ p'.external_id := by
    rcases hkeyne with hne | hne
    · exact Or.inl (by rw [hkp.1]; exact hne)
    · exact Or.inr (by rw [hkp.2]; exact hne)
  have hidne : (upsert_post st.db tid' p'.external_id p'.author p'.posted_at_utc
      p'.content_text p'.url).2.id ≠ prow.id :=
    upsert_post_id_ne st.db tid' p'.external_id _ _ _ _ hwf prow hmem hkeyne'
  have hfind1 : findPost (upsert_post st.db tid' p'.external_id p'.author p'.posted_at_utc
      p'.content_text p'.url).1.posts tid p.external_id = some prow := by
    rw [upsert_post_find_disjoint st.db tid' p'.external_id p'.author p'.posted_at_utc
      p'.content_text p'.url tid p.external_id hkeyne]
    exact hfind
  have hatts_eq : (upsert_post st.db tid' p'.external_id p'.author p'.posted_at_utc
      p'.content_text p'.url).1.attachments = st.db.attachments :=
    (upsert_post_proj _ _ _ _ _ _ _).2.1
  refine ⟨prow, ?_, h1, h2, h3, h4, ?_⟩
  · have hposts := (foldA_other env
      (upsert_post st.db tid' p'.external_id p'.author p'.posted_at_utc p'.content_text
        p'.url).2.id p'.attachments.enum
      ⟨(upsert_post st.db tid' p'.external_id p'.author p'.posted_at_utc p'.content_text
        p'.url).1, st.files⟩).2.1
    show findPost (processPost env tid' st p').db.posts tid p.external_id = some prow
    rw [show (processPost env tid' st p').db.posts =
      (upsert_post st.db tid' p'.external_id p'.author p'.posted_at_utc p'.content_text
        p'.url).1.posts from hposts]
    exact hfind1
  · intro ia hia
    have hrefl := hatts ia hia
    have hstart : attachmentReflected env
        (upsert_post st.db tid' p'.external_id p'.author p'.posted_at_utc p'.content_text
          p'.url).1.attachments st.files prow.id ia.1 ia.2 := by
      rw [hatts_eq]
      exact hrefl
    exact foldA_preserve env _ p'.attachments.enum
      ⟨(upsert_post st.db tid' p'.external_id p'.author p'.posted_at_utc p'.content_text
        p'.url).1, st.files⟩ prow.id ia.1 ia.2 (fun _ _ => Or.inl hidne) hstart

theorem processPost_fix (env : SyncEnv) (tid : ℕ) (st : SyncState) (p : ScrapedPost)
    (href : postReflected env st.db.posts st.db.attachments st.files tid p) :
    processPost env tid st p = st := by
  obtain ⟨prow, hfind, h1, h2, h3, h4, hatts⟩ := href
  have h' : st.db.posts.find? (postKey tid p.external_id) = some prow := hfind
  have hfix : postRowRefresh p.author p.posted_at_utc p.content_text p.url prow = prow := by
    obtain ⟨pi, pt, pe, pa2, pts, pc, pu, pd, pda⟩ := prow
    simp_all [postRowRefresh]
  have hup : upsert_post st.db tid p.external_id p.author p.posted_at_utc p.content_text
      p.url = (st.db, prow) := by
    simp only [upsert_post, hfind]
    rw [updateFirst_eq_self _ _ _ prow h' hfix, hfix]
  show p.attachments.enum.foldl (processAttachment env
      (upsert_post st.db tid p.external_id p.author p.posted_at_utc p.content_text
        p.url).2.id)
    ⟨(upsert_post st.db tid p.external_id p.author p.posted_at_utc p.content_text p.url).1,
      st.files⟩ = st
  rw [hup]
  exact foldA_fix env prow.id p.attachments.enum st fun ia hia => hatts ia hia

/-! #### The post fold of one topic -/

theorem foldP_other (env : SyncEnv) (tid : ℕ) :
    ∀ (l : List ScrapedPost) (st : SyncState),
      (l.foldl (processPost env tid) st).db.topics = st.db.topics ∧
      (l.foldl (processPost env tid) st).db.nextTopicId = st.db.nextTopicId
  | [], _ => ⟨rfl, rfl⟩
  | q :: rest, st => by
    rw [List.foldl_cons]
    have h1 := processPost_other env tid st q
    have ih := foldP_other env tid rest (processPost env tid st q)
    exact ⟨ih.1.trans h1.1, ih.2.trans h1.2⟩

theorem foldP_wf (env : SyncEnv) (tid : ℕ) :
    ∀ (l : List ScrapedPost) (st : SyncState), DbWF st.db →
      DbWF (l.foldl (processPost env tid) st).db
  | [], _, hwf => hwf
  | q :: rest, st, hwf => by
    rw [List.foldl_cons]
    exact foldP_wf env tid rest _ (wf_processPost env tid st q hwf)

theorem foldP_files_subset (env : SyncEnv) (tid : ℕ) :
    ∀ (l : List ScrapedPost) (st : SyncState),
      st.files ⊆ (l.foldl (processPost env tid) st).files
  | [], _ => fun _ hx => hx
  | q :: rest, st => by
    rw [List.foldl_cons]
    exact fun y hy => foldP_files_subset env tid rest _
      (files_subset_processPost env tid st q hy)

theorem foldP_preserve (env : SyncEnv) (tid' : ℕ) :
    ∀ (l : List ScrapedPost) (st : SyncState) (tid : ℕ) (p : ScrapedPost),
      DbWF st.db →
      (∀ q ∈ l, tid ≠ tid' ∨ p.external_id ≠ q.external_id) →
      postReflected env st.db.posts st.db.attachments st.files tid p →
      postReflected env (l.foldl (processPost env tid') st).db.posts
        (l.foldl (processPost env tid') st).db.attachments
        (l.foldl (processPost env tid') st).files tid p
  | [], _, _, _, _, _, href => href
  | q :: rest, st, tid, p, hwf, hkey, href => by
    rw [List.foldl_cons]
    refine foldP_preserve env tid' rest _ tid p (wf_processPost env tid' st q hwf)
      (fun q' hq' => hkey q' (List.mem_cons_of_mem q hq')) ?_
    exact processPost_preserves env tid' st q tid p hwf
      (hkey q (List.mem_cons_self q rest)) href

theorem foldP_establish (env : SyncEnv) (tid : ℕ) :
    ∀ (l : List ScrapedPost) (st : SyncState), DbWF st.db →
      l.Pairwise (fun a b => a.external_id ≠ b.external_id) →
      (∀ q ∈ l, q.attachments.Pairwise (fun a b => a.source_url ≠ b.source_url)) →
      ∀ q ∈ l, postReflected env (l.foldl (processPost env tid) st).db.posts
        (l.foldl (processPost env tid) st).db.attachments
        (l.foldl (processPost env tid) st).files tid q
  | [], _, _, _, _, q, hq => absurd hq (List.not_mem_nil q)
  | x :: rest, st, hwf, heid, hatt, q, hq => by
    rw [List.foldl_cons]
    rcases List.mem_cons.mp hq with rfl | hq'
    · refine foldP_preserve env tid rest _ tid q
        (wf_processPost env tid st q hwf)
        (fun q' hq' => Or.inr ((List.pairwise_cons.mp heid).1 q' hq')) ?_
      exact processPost_establishes env tid st q (hatt q (List.mem_cons_self q rest))
    · exact foldP_establish env tid rest _ (wf_processPost env tid st x hwf)
        (List.pairwise_cons.mp heid).2
        (fun q' hq'' => hatt q' (List.mem_cons_of_mem x hq'')) q hq'

theorem foldP_fix (env : SyncEnv) (tid : ℕ) :
    ∀ (l : List ScrapedPost) (st : SyncState),
      (∀ q ∈ l, postReflected env st.db.posts st.db.attachments st.files tid q) →
      l.foldl (processPost env tid) st = st
  | [], _, _ => rfl
  | q :: rest, st, hall => by
    rw [List.foldl_cons]
    have hq : processPost env tid st q = st :=
      processPost_fix env tid st q (hall q (List.mem_cons_self q rest))
    rw [hq]
    exact foldP_fix env tid rest st fun q' hq' => hall q' (List.mem_cons_of_mem q hq')

/-! #### The topic step -/

theorem upsert_topic_fields (db : Db) (now : ℤ) (sid : ℕ) (eid t u pl : String) :
    (upsert_topic db now sid eid t u pl).2.title = t ∧
    (upsert_topic db now sid eid t u pl).2.url = u ∧
    (upsert_topic db now sid eid t u pl).2.place_name = pl := by
  cases h : findTopic db.topics sid eid <;> simp [upsert_topic, h, topicRowRefresh]

theorem wf_processTopic (env : SyncEnv) (now : ℤ) (sid : ℕ) (st : SyncState)
    (T : ScrapedTopic) (hwf : DbWF st.db) : DbWF (processTopic env now sid st T).db := by
  have hwf1 : DbWF (upsert_topic st.db now sid T.external_id T.title T.url
      T.place_name).1 := wf_upsert_topic st.db now sid T.external_id T.title T.url
      T.place_name hwf
  have hwf2 := foldP_wf env
    (upsert_topic st.db now sid T.external_id T.title T.url T.place_name).2.id T.posts
    ⟨(upsert_topic st.db now sid T.external_id T.title T.url T.place_name).1, st.files⟩
    hwf1
  set st1 := T.posts.foldl (processPost env
    (upsert_topic st.db now sid T.external_id T.title T.url T.place_name).2.id)
    ⟨(upsert_topic st.db now sid T.external_id T.title T.url T.place_name).1, st.files⟩
    with hst1
  show DbWF (if geocode_expired env.geocodeTtl now
      (upsert_topic st.db now sid T.external_id T.title T.url T.place_name).2 = true then
        match env.geocode (upsert_topic st.db now sid T.external_id T.title T.url
          T.place_name).2.place_name with
        | some geo =>
          { st1.db with
              topics := updateFirst (topicKey sid T.external_id)
                (fun t => { t with geocoded_lat := some geo.lat,
                                   geocoded_lon := some geo.lon,
                                   geocode_provider := some geo.provider,
                                   geocode_confidence := some geo.confidence,
                                   geocode_updated_at := some now }) st1.db.topics }
        | none => st1.db
      else st1.db)
  by_cases hexp : geocode_expired env.geocodeTtl now
      (upsert_topic st.db now sid T.external_id T.title T.url T.place_name).2 = true
  · rw [if_pos hexp]
    cases hg : env.geocode (upsert_topic st.db now sid T.external_id T.title T.url
        T.place_name).2.place_name with
    | none => exact hwf2
    | some geo =>
      refine ⟨?_, ?_, hwf2.postIds, hwf2.postIdLt⟩
      · have hm := map_updateFirst (topicKey sid T.external_id)
          (fun t => { t with geocoded_lat := some geo.lat, geocoded_lon := some geo.lon,
                             geocode_provider := some geo.provider,
                             geocode_confidence := some geo.confidence,
                             geocode_updated_at := some now })
          TopicRow.id (fun x => rfl) st1.db.topics
        dsimp only
        rw [hm]
        exact hwf2.topicIds
      · intro x hx
        rcases mem_updateFirst _ _ _ x hx with hm | ⟨y, hy, rfl⟩
        · exact hwf2.topicIdLt x hm
        · exact hwf2.topicIdLt y hy
  · rw [if_neg hexp]
    exact hwf2

theorem find?_updateFirst_or {α : Type} (q p : α → Bool) (g : α → α)
    (hq : ∀ x, q (g x) = q x) :
    ∀ (l : List α) (a : α), l.find? q = some a →
      (updateFirst p g l).find? q = some a ∨ (updateFirst p g l).find? q = some (g a)
  | [], _, h => by simp at h
  | x :: xs, a, h => by
    by_cases hp : p x = true
    · simp only [updateFirst, if_pos hp]
      by_cases hqx : q x = true
      · rw [List.find?_cons_of_pos _ hqx] at h
        injection h with h'
        subst h'
        right
        rw [List.find?_cons_of_pos _ (by rw [hq x]; exact hqx)]
      · rw [List.find?_cons_of_neg _ (by simp [hqx])] at h
        left
        rw [List.find?_cons_of_neg _ (by simp [hq x, hqx])]
        exact h
    · simp only [updateFirst, if_neg hp]
      by_cases hqx : q x = true
      · rw [List.find?_cons_of_pos _ hqx] at h
        injection h with h'
        subst h'
        left
        rw [List.find?_cons_of_pos _ hqx]
      · rw [List.find?_cons_of_neg _ (by simp [hqx])] at h
        rcases find?_updateFirst_or q p g hq xs a h with h' | h'
        · left
          rw [List.find?_cons_of_neg _ (by simp [hqx])]
          exact h'
        · right
          rw [List.find?_cons_of_neg _ (by simp [hqx])]
          exact h'

/-- Rewriting topic rows with any update that keeps the key, the scraped
fields and the id (such as the geocode write of the run's geocode block)
preserves a topic's reflection. -/
theorem topicReflected_updateTopics (env : SyncEnv) (sid : ℕ) (st1 : SyncState)
    (T : ScrapedTopic) (p : TopicRow → Bool) (g : TopicRow → TopicRow)
    (hg : ∀ t, (g t).source_id = t.source_id ∧ (g t).external_id = t.external_id ∧
      (g t).title = t.title ∧ (g t).url = t.url ∧ (g t).place_name = t.place_name ∧
      (g t).id = t.id)
    (href : topicReflected env sid st1 T) :
    topicReflected env sid
      ⟨{ st1.db with topics := updateFirst p g st1.db.topics }, st1.files⟩ T := by
  obtain ⟨trow, hfind, ht, hu, hpl, hposts⟩ := href
  have hfind' : st1.db.topics.find? (topicKey sid T.external_id) = some trow := hfind
  have hq : ∀ x, topicKey sid T.external_id (g x) = topicKey sid T.external_id x := by
    intro x
    simp [topicKey, (hg x).1, (hg x).2.1]
  rcases find?_updateFirst_or (topicKey sid T.external_id) p g hq st1.db.topics trow hfind'
    with hcase | hcase
  · exact ⟨trow, hcase, ht, hu, hpl, hposts⟩
  · refine ⟨g trow, hcase, ?_, ?_, ?_, ?_⟩
    · rw [(hg trow).2.2.1]
      exact ht
    · rw [(hg trow).2.2.2.1]
      exact hu
    · rw [(hg trow).2.2.2.2.1]
      exact hpl
    · intro q hq'
      rw [(hg trow).2.2.2.2.2]
      exact hposts q hq'

/-- A post fold whose post-row id differs from the reflected topic's row id
leaves the whole topic reflection intact. -/
theorem foldP_topicReflected (env : SyncEnv) (tid' : ℕ) (l : List ScrapedPost)
    (st : SyncState) (sid : ℕ) (T : ScrapedTopic) (hwf : DbWF st.db)
    (href : topicReflected env sid st T)
    (hid : ∀ trow, findTopic st.db.topics sid T.external_id = some trow → trow.id ≠ tid') :
    topicReflected env sid (l.foldl (processPost env tid') st) T := by
  obtain ⟨trow, hfind, ht, hu, hpl, hposts⟩ := href
  refine ⟨trow, ?_, ht, hu, hpl, ?_⟩
  · show findTopic (l.foldl (processPost env tid') st).db.topics sid T.external_id =
      some trow
    rw [(foldP_other env tid' l st).1]
    exact hfind
  · intro q hq
    exact foldP_preserve env tid' l st trow.id q hwf
      (fun q' _ => Or.inl (hid trow hfind)) (hposts q hq)

theorem processTopic_establishes (env : SyncEnv) (now : ℤ) (sid : ℕ) (st : SyncState)
    (T : ScrapedTopic) (hwf : DbWF st.db)
    (hpe : T.posts.Pairwise (fun a b => a.external_id ≠ b.external_id))
    (hatt : ∀ q ∈ T.posts,
      q.attachments.Pairwise (fun a b => a.source_url ≠ b.source_url)) :
    topicReflected env sid (processTopic env now sid st T) T := by
  have hwf1 : DbWF (upsert_topic st.db now sid T.external_id T.title T.url
      T.place_name).1 :=
    wf_upsert_topic st.db now sid T.external_id T.title T.url T.place_name hwf
  have hfields := upsert_topic_fields st.db now sid T.external_id T.title T.url
    T.place_name
  have hrefl1 : topicReflected env sid
      (T.posts.foldl (processPost env
        (upsert_topic st.db now sid T.external_id T.title T.url T.place_name).2.id)
        ⟨(upsert_topic st.db now sid T.external_id T.title T.url T.place_name).1,
          st.files⟩) T := by
    refine ⟨(upsert_topic st.db now sid T.external_id T.title T.url T.place_name).2,
      ?_, hfields.1, hfields.2.1, hfields.2.2, ?_⟩
    · show findTopic
        (T.posts.foldl (processPost env
          (upsert_topic st.db now sid T.external_id T.title T.url T.place_name).2.id)
          ⟨(upsert_topic st.db now sid T.external_id T.title T.url T.place_name).1,
            st.files⟩).db.topics sid T.external_id = some _
      rw [(foldP_other env
        (upsert_topic st.db now sid T.external_id T.title T.url T.place_name).2.id T.posts
        ⟨(upsert_topic st.db now sid T.external_id T.title T.url T.place_name).1,
          st.files⟩).1]
      exact upsert_topic_find st.db now sid T.external_id T.title T.url T.place_name
    · exact foldP_establish env
        (upsert_topic st.db now sid T.external_id T.title T.url T.place_name).2.id T.posts
        ⟨(upsert_topic st.db now sid T.external_id T.title T.url T.place_name).1,
          st.files⟩ hwf1 hpe hatt
  set st1 := T.posts.foldl (processPost env
    (upsert_topic st.db now sid T.external_id T.title T.url T.place_name).2.id)
    ⟨(upsert_topic st.db now sid T.external_id T.title T.url T.place_name).1, st.files⟩
    with hst1
  show topicReflected env sid
    ⟨(if geocode_expired env.geocodeTtl now
        (upsert_topic st.db now sid T.external_id T.title T.url T.place_name).2 = true then
          match env.geocode (upsert_topic st.db now sid T.external_id T.title T.url
            T.place_name).2.place_name with
          | some geo =>
            { st1.db with
                topics := updateFirst (topicKey sid T.external_id)
                  (fun t => { t with geocoded_lat := some geo.lat,
                                     geocoded_lon := some geo.lon,
                                     geocode_provider := some geo.provider,
                                     geocode_confidence := some geo.confidence,
                                     geocode_updated_at := some now }) st1.db.topics }
          | none => st1.db
        else st1.db), st1.files⟩ T
  by_cases hexp : geocode_expired env.geocodeTtl now
      (upsert_topic st.db now sid T.external_id T.title T.url T.place_name).2 = true
  · rw [if_pos hexp]
    cases hg : env.geocode (upsert_topic st.db now sid T.external_id T.title T.url
        T.place_name).2.place_name with
    | none => exact hrefl1
    | some geo =>
      exact topicReflected_updateTopics env sid st1 T (topicKey sid T.external_id)
        (fun t => { t with geocoded_lat := some geo.lat, geocoded_lon := some geo.lon,
                           geocode_provider := some geo.provider,
                           geocode_confidence := some geo.confidence,
                           geocode_updated_at := some now })
        (fun _ => ⟨rfl, rfl, rfl, rfl, rfl, rfl⟩) hrefl1
  · rw [if_neg hexp]
    exact hrefl1

theorem processTopic_preserves (env : SyncEnv) (now : ℤ) (sid : ℕ) (st : SyncState)
    (T' T : ScrapedTopic) (hwf : DbWF st.db)
    (hne : T.external_id ≠ T'.external_id)
    (href : topicReflected env sid st T) :
    topicReflected env sid (processTopic env now sid st T') T := by
  obtain ⟨trow, hfind, ht, hu, hpl, hposts⟩ := href
  have hmem : trow ∈ st.db.topics := List.mem_of_find?_eq_some hfind
  have hkey : topicKey sid T.external_id trow = true := List.find?_some hfind
  simp only [topicKey, Bool.and_eq_true, beq_iff_eq] at hkey
  have hidne : (upsert_topic st.db now sid T'.external_id T'.title T'.url
      T'.place_name).2.id ≠ trow.id :=
    upsert_topic_id_ne st.db now sid T'.external_id T'.title T'.url T'.place_name hwf
      trow hmem (Or.inr (by rw [hkey.2]; exact hne))
  have hwf1 := wf_upsert_topic st.db now sid T'.external_id T'.title T'.url
    T'.place_name hwf
  have hproj := upsert_topic_proj st.db now sid T'.external_id T'.title T'.url
    T'.place_name
  have hmid : topicReflected env sid
      ⟨(upsert_topic st.db now sid T'.external_id T'.title T'.url T'.place_name).1,
        st.files⟩ T := by
    refine ⟨trow, ?_, ht, hu, hpl, ?_⟩
    · show findTopic
        (upsert_topic st.db now sid T'.external_id T'.title T'.url T'.place_name).1.topics
        sid T.external_id = some trow
      rw [upsert_topic_find_disjoint st.db now sid T'.external_id T'.title T'.url
        T'.place_name sid T.external_id (Or.inr hne)]
      exact hfind
    · intro q hq
      show postReflected env
        (upsert_topic st.db now sid T'.external_id T'.title T'.url T'.place_name).1.posts
        (upsert_topic st.db now sid T'.external_id T'.title T'.url
          T'.place_name).1.attachments st.files trow.id q
      rw [hproj.1, hproj.2.1]
      exact hposts q hq
  have hfold : topicReflected env sid
      (T'.posts.foldl (processPost env
        (upsert_topic st.db now sid T'.external_id T'.title T'.url T'.place_name).2.id)
        ⟨(upsert_topic st.db now sid T'.external_id T'.title T'.url T'.place_name).1,
          st.files⟩) T := by
    refine foldP_topicReflected env _ T'.posts _ sid T hwf1 hmid ?_
    intro trow2 hfind2
    have hfind2' : findTopic (upsert_topic st.db now sid T'.external_id T'.title T'.url
        T'.place_name).1.topics sid T.external_id = some trow2 := hfind2
    rw [upsert_topic_find_disjoint st.db now sid T'.external_id T'.title T'.url
      T'.place_name sid T.external_id (Or.inr hne), hfind] at hfind2'
    injection hfind2' with h2
    rw [← h2]
    exact Ne.symm hidne
  set st1 := T'.posts.foldl (processPost env
    (upsert_topic st.db now sid T'.external_id T'.title T'.url T'.place_name).2.id)
    ⟨(upsert_topic st.db now sid T'.external_id T'.title T'.url T'.place_name).1,
      st.files⟩ with hst1
  show topicReflected env sid
    ⟨(if geocode_expired env.geocodeTtl now
        (upsert_topic st.db now sid T'.external_id T'.title T'.url
          T'.place_name).2 = true then
          match env.geocode (upsert_topic st.db now sid T'.external_id T'.title T'.url
            T'.place_name).2.place_name with
          | some geo =>
            { st1.db with
                topics := updateFirst (topicKey sid T'.external_id)
                  (fun t => { t with geocoded_lat := some geo.lat,
                                     geocoded_lon := some geo.lon,
                                     geocode_provider := some geo.provider,
                                     geocode_confidence := some geo.confidence,
                                     geocode_updated_at := some now }) st1.db.topics }
          | none => st1.db
        else st1.db), st1.files⟩ T
  by_cases hexp : geocode_expired env.geocodeTtl now
      (upsert_topic st.db now sid T'.external_id T'.title T'.url T'.place_name).2 = true
  · rw [if_pos hexp]
    cases hg : env.geocode (upsert_topic st.db now sid T'.external_id T'.title T'.url
        T'.place_name).2.place_name with
    | none => exact hfold
    | some geo =>
      exact topicReflected_updateTopics env sid st1 T (topicKey sid T'.external_id)
        (fun t => { t with geocoded_lat := some geo.lat, geocoded_lon := some geo.lon,
                           geocode_provider := some geo.provider,
                           geocode_confidence := some geo.confidence,
                           geocode_updated_at := some now })
        (fun _ => ⟨rfl, rfl, rfl, rfl, rfl, rfl⟩) hfold
  · rw [if_neg hexp]
    exact hfold

theorem processTopic_fix (env : SyncEnv) (now : ℤ) (sid : ℕ) (st : SyncState)
    (T : ScrapedTopic)
    (href : topicReflected env sid st T)
    (hgeo : ∀ trow, findTopic st.db.topics sid T.external_id = some trow →
      geocode_expired env.geocodeTtl now trow = false ∨
        env.geocode trow.place_name = none) :
    processTopic env now sid st T = bumpTopic sid T.external_id now st := by
  obtain ⟨trow, hfind, ht, hu, hpl, hposts⟩ := href
  have hfind' : st.db.topics.find? (topicKey sid T.external_id) = some trow := hfind
  have hrow : topicRowRefresh T.title T.url T.place_name now trow =
      { trow with last_seen_at := now } := by
    obtain ⟨ti, ts, te, tt, tu, tp, gla, glo, gpr, gco, gup, tl⟩ := trow
    simp_all [topicRowRefresh]
  have hup : upsert_topic st.db now sid T.external_id T.title T.url T.place_name =
      ({ st.db with
          topics := updateFirst (topicKey sid T.external_id)
            (fun t => { t with last_seen_at := now }) st.db.topics },
        { trow with last_seen_at := now }) := by
    have hcong := updateFirst_congr (topicKey sid T.external_id)
      (topicRowRefresh T.title T.url T.place_name now)
      (fun t => { t with last_seen_at := now }) st.db.topics trow hfind' hrow
    simp only [upsert_topic, hfind]
    rw [hcong, hrow]
  have hfold : T.posts.foldl (processPost env
      (upsert_topic st.db now sid T.external_id T.title T.url T.place_name).2.id)
      ⟨(upsert_topic st.db now sid T.external_id T.title T.url T.place_name).1,
        st.files⟩ =
      ⟨(upsert_topic st.db now sid T.external_id T.title T.url T.place_name).1,
        st.files⟩ := by
    rw [hup]
    exact foldP_fix env trow.id T.posts
      ⟨{ st.db with
          topics := updateFirst (topicKey sid T.external_id)
            (fun t => { t with last_seen_at := now }) st.db.topics }, st.files⟩
      (fun q hq => hposts q hq)
  set st1 := T.posts.foldl (processPost env
    (upsert_topic st.db now sid T.external_id T.title T.url T.place_name).2.id)
    ⟨(upsert_topic st.db now sid T.external_id T.title T.url T.place_name).1, st.files⟩
    with hst1
  show (⟨(if geocode_expired env.geocodeTtl now
      (upsert_topic st.db now sid T.external_id T.title T.url T.place_name).2 = true then
        match env.geocode (upsert_topic st.db now sid T.external_id T.title T.url
          T.place_name).2.place_name with
        | some geo =>
          { st1.db with
              topics := updateFirst (topicKey sid T.external_id)
                (fun t => { t with geocoded_lat := some geo.lat,
                                   geocoded_lon := some geo.lon,
                                   geocode_provider := some geo.provider,
                                   geocode_confidence := some geo.confidence,
                                   geocode_updated_at := some now }) st1.db.topics }
        | none => st1.db
      else st1.db), st1.files⟩ : SyncState) = bumpTopic sid T.external_id now st
  rw [hfold, hup]
  dsimp only
  have hexpeq : geocode_expired env.geocodeTtl now
      ({ trow with last_seen_at := now }) = geocode_expired env.geocodeTtl now trow := rfl
  rw [hexpeq]
  by_cases hexp : geocode_expired env.geocodeTtl now trow = true
  · rw [if_pos hexp]
    rcases hgeo trow hfind with hfalse | hnone
    · rw [hfalse] at hexp
      simp at hexp
    · rw [hnone]
      rfl
  · rw [if_neg hexp]
    rfl

theorem find?_updateFirst_none {α : Type} (q p : α → Bool) (g : α → α)
    (hq : ∀ x, q (g x) = q x) (l : List α) (h : l.find? q = none) :
    (updateFirst p g l).find? q = none := by
  rw [List.find?_eq_none] at h ⊢
  intro y hy
  rcases mem_updateFirst p g l y hy with hm | ⟨x, hx, rfl⟩
  · exact h y hm
  · intro hqy
    rw [hq x] at hqy
    exact h x hx hqy

theorem find?_updateFirst_rev {α : Type} (q p : α → Bool) (g : α → α)
    (hq : ∀ x, q (g x) = q x) (l : List α) (r : α)
    (h : (updateFirst p g l).find? q = some r) :
    ∃ a, l.find? q = some a ∧ (r = a ∨ r = g a) := by
  cases hl : l.find? q with
  | none =>
    rw [find?_updateFirst_none q p g hq l hl] at h
    simp at h
  | some a =>
    rcases find?_updateFirst_or q p g hq l a hl with h' | h'
    · rw [h'] at h
      injection h with h2
      exact ⟨a, rfl, Or.inl h2.symm⟩
    · rw [h'] at h
      injection h with h2
      exact ⟨a, rfl, Or.inr h2.symm⟩

theorem wf_bumpTopic (sid : ℕ) (eid : String) (now : ℤ) (st : SyncState)
    (hwf : DbWF st.db) : DbWF (bumpTopic sid eid now st).db := by
  refine ⟨?_, ?_, hwf.postIds, hwf.postIdLt⟩
  · show ((updateFirst (topicKey sid eid) (fun t => { t with last_seen_at := now })
      st.db.topics).map TopicRow.id).Pairwise (· ≠ ·)
    rw [map_updateFirst (topicKey sid eid) (fun t => { t with last_seen_at := now })
      TopicRow.id (fun x => rfl) st.db.topics]
    exact hwf.topicIds
  · intro x hx
    rcases mem_updateFirst (topicKey sid eid) (fun t => { t with last_seen_at := now })
      st.db.topics x hx with hm | ⟨y, hy, rfl⟩
    · exact hwf.topicIdLt x hm
    · exact hwf.topicIdLt y hy

theorem bump_topicReflected (sid' : ℕ) (eid' : String) (now : ℤ) (env : SyncEnv)
    (sid : ℕ) (st : SyncState) (T : ScrapedTopic)
    (href : topicReflected env sid st T) :
    topicReflected env sid (bumpTopic sid' eid' now st) T :=
  topicReflected_updateTopics env sid st T (topicKey sid' eid')
    (fun t => { t with last_seen_at := now }) (fun _ => ⟨rfl, rfl, rfl, rfl, rfl, rfl⟩)
    href

theorem geoQuiet_bump (env : SyncEnv) (now now' : ℤ) (sid sid' : ℕ) (eid' : String)
    (st : SyncState) (T : ScrapedTopic)
    (hq : geoQuiet env now sid st.db T) :
    geoQuiet env now sid (bumpTopic sid' eid' now' st).db T := by
  intro trow hfindb
  have hfindb' : (updateFirst (topicKey sid' eid')
      (fun t => { t with last_seen_at := now' })
      st.db.topics).find? (topicKey sid T.external_id) = some trow := hfindb
  have hqk : ∀ x, topicKey sid T.external_id
      ((fun t => { t with last_seen_at := now' }) x) = topicKey sid T.external_id x :=
    fun x => rfl
  rcases find?_updateFirst_rev (topicKey sid T.external_id) (topicKey sid' eid')
    (fun t => { t with last_seen_at := now' }) hqk st.db.topics trow hfindb' with
    ⟨a, hfa, ha⟩
  rcases ha with h | h
  · rw [h]
    exact hq a hfa
  · rw [h]
    rcases hq a hfa with h' | h'
    · exact Or.inl h'
    · exact Or.inr h'

theorem wf_runTopics (env : SyncEnv) (now : ℤ) (sid : ℕ) :
    ∀ (ts : List ScrapedTopic) (st : SyncState), DbWF st.db →
      DbWF (ts.foldl (processTopic env now sid) st).db
  | [], _, hwf => hwf
  | x :: rest, st, hwf => by
    rw [List.foldl_cons]
    exact wf_runTopics env now sid rest _ (wf_processTopic env now sid st x hwf)

theorem runTopics_preserved (env : SyncEnv) (now : ℤ) (sid : ℕ) :
    ∀ (ts : List ScrapedTopic) (st : SyncState) (T : ScrapedTopic), DbWF st.db →
      (∀ q ∈ ts, T.external_id ≠ q.external_id) →
      topicReflected env sid st T →
      topicReflected env sid (ts.foldl (processTopic env now sid) st) T
  | [], _, _, _, _, href => href
  | x :: rest, st, T, hwf, hne, href => by
    rw [List.foldl_cons]
    exact runTopics_preserved env now sid rest _ T
      (wf_processTopic env now sid st x hwf)
      (fun q hq => hne q (List.mem_cons_of_mem x hq))
      (processTopic_preserves env now sid st x T hwf (hne x (List.mem_cons_self x rest))
        href)

theorem runTopics_establishes (env : SyncEnv) (now : ℤ) (sid : ℕ) :
    ∀ (ts : List ScrapedTopic) (st : SyncState), DbWF st.db →
      ts.Pairwise (fun a b => a.external_id ≠ b.external_id) →
      (∀ T ∈ ts, T.posts.Pairwise (fun a b => a.external_id ≠ b.external_id)) →
      (∀ T ∈ ts, ∀ q ∈ T.posts,
        q.attachments.Pairwise (fun a b => a.source_url ≠ b.source_url)) →
      ∀ T ∈ ts, topicReflected env sid (ts.foldl (processTopic env now sid) st) T
  | [], _, _, _, _, _, T, hT => absurd hT (List.not_mem_nil T)
  | x :: rest, st, hwf, hts, hpe, hatt, T, hT => by
    rw [List.foldl_cons]
    rcases List.mem_cons.mp hT with rfl | hT'
    · exact runTopics_preserved env now sid rest _ T
        (wf_processTopic env now sid st T hwf)
        (fun q hq => (List.pairwise_cons.mp hts).1 q hq)
        (processTopic_establishes env now sid st T hwf
          (hpe T (List.mem_cons_self T rest)) (hatt T (List.mem_cons_self T rest)))
    · exact runTopics_establishes env now sid rest _
        (wf_processTopic env now sid st x hwf) (List.pairwise_cons.mp hts).2
        (fun q h => hpe q (List.mem_cons_of_mem x h))
        (fun q h => hatt q (List.mem_cons_of_mem x h)) T hT'

theorem runTopics_fix (env : SyncEnv) (now : ℤ) (sid : ℕ) :
    ∀ (ts : List ScrapedTopic) (st : SyncState), DbWF st.db →
      (∀ T ∈ ts, topicReflected env sid st T) →
      (∀ T ∈ ts, geoQuiet env now sid st.db T) →
      ts.foldl (processTopic env now sid) st = bumpAll sid now st ts
  | [], _, _, _, _ => rfl
  | T :: rest, st, hwf, hrefl, hq => by
    rw [List.foldl_cons]
    have hfix : processTopic env now sid st T = bumpTopic sid T.external_id now st :=
      processTopic_fix env now sid st T (hrefl T (List.mem_cons_self T rest))
        (hq T (List.mem_cons_self T rest))
    rw [hfix]
    have hrec := runTopics_fix env now sid rest (bumpTopic sid T.external_id now st)
      (wf_bumpTopic sid T.external_id now st hwf)
      (fun q hq' => bump_topicReflected sid T.external_id now env sid st q
        (hrefl q (List.mem_cons_of_mem T hq')))
      (fun q hq' => geoQuiet_bump env now now sid sid T.external_id st q
        (hq q (List.mem_cons_of_mem T hq')))
    rw [hrec]
    rfl

theorem sameButSeen_refl (x : TopicRow) : sameButSeen x x :=
  ⟨rfl, rfl, rfl, rfl, rfl, rfl, rfl, rfl, rfl, rfl, rfl⟩

theorem sameButSeen_trans (a b c : TopicRow) (h₁ : sameButSeen a b)
    (h₂ : sameButSeen b c) : sameButSeen a c := by
  obtain ⟨h1, h2, h3, h4, h5, h6, h7, h8, h9, h10, h11⟩ := h₁
  obtain ⟨g1, g2, g3, g4, g5, g6, g7, g8, g9, g10, g11⟩ := h₂
  exact ⟨h1.trans g1, h2.trans g2, h3.trans g3, h4.trans g4, h5.trans g5, h6.trans g6,
    h7.trans g7, h8.trans g8, h9.trans g9, h10.trans g10, h11.trans g11⟩

theorem bump_sameButSeen (now : ℤ) (x : TopicRow) :
    sameButSeen { x with last_seen_at := now } x :=
  ⟨rfl, rfl, rfl, rfl, rfl, rfl, rfl, rfl, rfl, rfl, rfl⟩

theorem forall2_updateFirst {α : Type} (R : α → α → Prop) (p : α → Bool) (g : α → α)
    (hrefl : ∀ x, R x x) (hg : ∀ x, R (g x) x) :
    ∀ l : List α, List.Forall₂ R (updateFirst p g l) l
  | [] => List.Forall₂.nil
  | x :: xs => by
    by_cases hx : p x = true
    · simp only [updateFirst, if_pos hx]
      exact List.Forall₂.cons (hg x) (List.forall₂_same.mpr fun y _ => hrefl y)
    · simp only [updateFirst, if_neg hx]
      exact List.Forall₂.cons (hrefl x) (forall2_updateFirst R p g hrefl hg xs)

theorem forall2_trans {α : Type} (R : α → α → Prop)
    (htrans : ∀ a b c, R a b → R b c → R a c) :
    ∀ {l₁ l₂ l₃ : List α}, List.Forall₂ R l₁ l₂ → List.Forall₂ R l₂ l₃ →
      List.Forall₂ R l₁ l₃ := by
  intro l₁ l₂ l₃ h₁ h₂
  induction h₁ generalizing l₃ with
  | nil => cases h₂; exact List.Forall₂.nil
  | cons ha hl ih =>
    cases h₂ with
    | cons hb hl₂ => exact List.Forall₂.cons (htrans _ _ _ ha hb) (ih hl₂)

theorem bumpAll_props (sid : ℕ) (now : ℤ) :
    ∀ (ts : List ScrapedTopic) (st : SyncState),
      (bumpAll sid now st ts).db.posts = st.db.posts ∧
      (bumpAll sid now st ts).db.attachments = st.db.attachments ∧
      (bumpAll sid now st ts).files = st.files ∧
      List.Forall₂ sameButSeen (bumpAll sid now st ts).db.topics st.db.topics
  | [], st => ⟨rfl, rfl, rfl, List.forall₂_same.mpr fun x _ => sameButSeen_refl x⟩
  | T :: rest, st => by
    have ih := bumpAll_props sid now rest (bumpTopic sid T.external_id now st)
    have hstep : bumpAll sid now st (T :: rest) =
        bumpAll sid now (bumpTopic sid T.external_id now st) rest := rfl
    rw [hstep]
    refine ⟨ih.1, ih.2.1, ih.2.2.1, ?_⟩
    refine forall2_trans sameButSeen sameButSeen_trans ih.2.2.2 ?_
    show List.Forall₂ sameButSeen (updateFirst (topicKey sid T.external_id)
      (fun t => { t with last_seen_at := now }) st.db.topics) st.db.topics
    exact forall2_updateFirst sameButSeen _ _ sameButSeen_refl (bump_sameButSeen now)
      st.db.topics

/-- C2 (amended): against an unchanged scraped topic list, with well-formed
state and distinct keys, a second run of the topics loop is exactly the
`last_seen_at` bump of every listed topic — provided no stored topic row is
due for a geocode refresh at the second run (or the provider has no answer
for it).  Consequently the second run leaves the Post and Attachment tables
and the downloaded-file set identical, keeps the Topic row count, and keeps
every stored Topic column except `last_seen_at`. -/
theorem C2_theorem (env : SyncEnv) (sid : ℕ) (now₁ now₂ : ℤ) (s0 : SyncState)
    (ts : List ScrapedTopic)
    (hwf : DbWF s0.db)
    (hts : ts.Pairwise (fun a b => a.external_id ≠ b.external_id))
    (hpe : ∀ T ∈ ts, T.posts.Pairwise (fun a b => a.external_id ≠ b.external_id))
    (hatt : ∀ T ∈ ts, ∀ q ∈ T.posts,
      q.attachments.Pairwise (fun a b => a.source_url ≠ b.source_url))
    (hgeo : ∀ r ∈ (runTopics env now₁ sid s0 ts).db.topics,
      geocode_expired env.geocodeTtl now₂ r = false ∨
        env.geocode r.place_name = none) :
    runTopics env now₂ sid (runTopics env now₁ sid s0 ts) ts =
      bumpAll sid now₂ (runTopics env now₁ sid s0 ts) ts ∧
    (runTopics env now₂ sid (runTopics env now₁ sid s0 ts) ts).db.posts =
      (runTopics env now₁ sid s0 ts).db.posts ∧
    (runTopics env now₂ sid (runTopics env now₁ sid s0 ts) ts).db.attachments =
      (runTopics env now₁ sid s0 ts).db.attachments ∧
    (runTopics env now₂ sid (runTopics env now₁ sid s0 ts) ts).files =
      (runTopics env now₁ sid s0 ts).files ∧
    (runTopics env now₂ sid (runTopics env now₁ sid s0 ts) ts).db.topics.length =
      (runTopics env now₁ sid s0 ts).db.topics.length ∧
    List.Forall₂ sameButSeen
      (runTopics env now₂ sid (runTopics env now₁ sid s0 ts) ts).db.topics
      (runTopics env now₁ sid s0 ts).db.topics := by
  have hwf1 : DbWF (runTopics env now₁ sid s0 ts).db :=
    wf_runTopics env now₁ sid ts s0 hwf
  have hrefl : ∀ T ∈ ts, topicReflected env sid (runTopics env now₁ sid s0 ts) T :=
    runTopics_establishes env now₁ sid ts s0 hwf hts hpe hatt
  have hquiet : ∀ T ∈ ts, geoQuiet env now₂ sid (runTopics env now₁ sid s0 ts).db T := by
    intro T _ trow hfindr
    exact hgeo trow (List.mem_of_find?_eq_some hfindr)
  have hmain : runTopics env now₂ sid (runTopics env now₁ sid s0 ts) ts =
      bumpAll sid now₂ (runTopics env now₁ sid s0 ts) ts :=
    runTopics_fix env now₂ sid ts (runTopics env now₁ sid s0 ts) hwf1 hrefl hquiet
  have hprops := bumpAll_props sid now₂ ts (runTopics env now₁ sid s0 ts)
  refine ⟨hmain, ?_, ?_, ?_, ?_, ?_⟩
  · rw [hmain]
    exact hprops.1
  · rw [hmain]
    exact hprops.2.1
  · rw [hmain]
    exact hprops.2.2.1
  · rw [hmain]
    exact hprops.2.2.2.length_eq
  · rw [hmain]
    exact hprops.2.2.2

/-- C2 witness: a concrete second run over one topic from an empty database
is exactly the bump of its `last_seen_at`. -/
theorem C2_witness :
    [topicC2].Pairwise (fun a b => a.external_id ≠ b.external_id) ∧
    runTopics envC2 1 1 (runTopics envC2 0 1 ⟨emptyDb, []⟩ [topicC2]) [topicC2] =
      bumpAll 1 1 (runTopics envC2 0 1 ⟨emptyDb, []⟩ [topicC2]) [topicC2] :=
  ⟨by decide,
    (C2_theorem envC2 1 0 1 ⟨emptyDb, []⟩ [topicC2] emptyDb_wf (by decide) (by decide)
      (by decide) (by decide)).1⟩

end RybaVVode

